import Mathlib

set_option maxRecDepth 4000

/-!
Verification of the CCPM build tool (`build.py`).

The script builds compressed package archives from a source tree and maintains a
JSON index of the archive pool.  This development shallowly embeds the script:

* `Json` models the Python values handled by `json.load`/`json.dumps`
  (numbers restricted to integers; the script's data never uses floats);
* `dumpsVal`/`loadsStr` model `json.dumps` (default separators, `ensure_ascii`)
  and `json.loads`;
* `b64encodeChars`/`b64decodeFiltered` model `base64.b64encode`/`b64decode`;
* `utf8Encode`/`utf8Decode` model `str.encode()`/`bytes.decode()`;
* zlib and hashlib are external libraries; a `Ctx` carries `deflate`/`inflate`
  and `digest` as parameters, with their contracts as explicit hypotheses;
* the orchestrator (`build_and_write_package`, `repair_package_index`, the
  `__main__` block) is modelled with explicit state: a pool of files, a log of
  printed lines, and a Python-exception monad `Except Exc`.

Python strings are modelled as `List Char` (`Str`); the pool maps file names to
file contents in insertion order, mirroring dict/scandir behaviour used here.
-/

/-- Python strings: a list of unicode code points (Lean `Char`). -/
abbrev Str := List Char

mutual

/-- A JSON value as handled by Python's `json` module, with numbers restricted
to integers (the build tool's data contains no floats). Objects keep insertion
order, like Python dicts. -/
inductive Json where
  | null : Json
  | bool (b : Bool) : Json
  | num (i : Int) : Json
  | str (s : Str) : Json
  | arr (a : JsonArr) : Json
  | obj (o : JsonObj) : Json

/-- The element list of a JSON array. -/
inductive JsonArr where
  | anil : JsonArr
  | acons (hd : Json) (tl : JsonArr) : JsonArr

/-- The member list of a JSON object, in insertion order. -/
inductive JsonObj where
  | onil : JsonObj
  | ocons (k : Str) (v : Json) (tl : JsonObj) : JsonObj

end

deriving instance DecidableEq for Json

/-! ## Decimal numerals (`str(int)` / the parser's digit reading) -/

/-- The character for a decimal digit. -/
def digitChar (d : Nat) : Char := Char.ofNat (48 + d)

/-- Decimal digits of `n`, most significant first (empty for 0); fueled. -/
def natCharsAux : Nat → Nat → List Char
  | 0, _ => []
  | fuel+1, n => if n = 0 then [] else natCharsAux fuel (n / 10) ++ [digitChar (n % 10)]

/-- Decimal representation of a natural number, as Python's `str`/`json.dumps`. -/
def natChars (n : Nat) : List Char := if n = 0 then ['0'] else natCharsAux (n+1) n

/-- Decimal representation of an integer, as Python's `str`/`json.dumps`. -/
def intChars (i : Int) : List Char :=
  if i < 0 then '-' :: natChars i.natAbs else natChars i.natAbs

/-- Is `c` a decimal digit? -/
def isDigitCh (c : Char) : Bool := '0' ≤ c && c ≤ '9'

/-- Numeric value of a digit list (most significant first). -/
def digitsVal (l : List Char) : Nat := l.foldl (fun a c => 10 * a + (c.toNat - 48)) 0

/-! ## String escaping (`json.dumps` with `ensure_ascii=True`) -/

/-- Lower-case hex digit character. -/
def hexDigit (d : Nat) : Char := Char.ofNat (if d < 10 then 48 + d else 87 + d)

/-- Four lower-case hex digits of `n < 0x10000`, as in a `\uXXXX` escape. -/
def hex4 (n : Nat) : List Char :=
  [hexDigit (n / 4096 % 16), hexDigit (n / 256 % 16), hexDigit (n / 16 % 16), hexDigit (n % 16)]

/-- The `\uXXXX` escape for code unit `n`. -/
def uEscape (n : Nat) : List Char := '\\' :: 'u' :: hex4 n

/-- `json.dumps` escaping of one character under `ensure_ascii=True`: the short
escapes, raw printable ASCII, `\uXXXX` for the rest, surrogate pairs above
`0xFFFF`. -/
def escChar (c : Char) : List Char :=
  if c = '"' then ['\\', '"']
  else if c = '\\' then ['\\', '\\']
  else if c = '\n' then ['\\', 'n']
  else if c = '\r' then ['\\', 'r']
  else if c = '\t' then ['\\', 't']
  else if c.toNat = 8 then ['\\', 'b']
  else if c.toNat = 12 then ['\\', 'f']
  else if 0x20 ≤ c.toNat ∧ c.toNat ≤ 0x7e then [c]
  else if c.toNat ≤ 0xFFFF then uEscape c.toNat
  else
    let v := c.toNat - 0x10000
    uEscape (0xD800 + v / 0x400) ++ uEscape (0xDC00 + v % 0x400)

/-- Escape a whole string body (without the surrounding quotes). -/
def escStr (s : Str) : List Char := s.foldr (fun c acc => escChar c ++ acc) []

/-! ## The printer: `json.dumps` with default separators `", "` and `": "` -/

mutual

/-- `json.dumps` of a value (default separators, `ensure_ascii=True`,
insertion-ordered objects). -/
def dumpsVal : Json → List Char
  | .null => "null".data
  | .bool true => "true".data
  | .bool false => "false".data
  | .num i => intChars i
  | .str s => '"' :: escStr s ++ ['"']
  | .arr .anil => ['[', ']']
  | .arr (.acons j t) => '[' :: (dumpsVal j ++ dumpsArrTail t) ++ [']']
  | .obj .onil => ['{', '}']
  | .obj (.ocons k v t) =>
      '{' :: ('"' :: escStr k ++ '"' :: ':' :: ' ' :: dumpsVal v ++ dumpsObjTail t) ++ ['}']

/-- Remaining array items, each preceded by the `", "` separator. -/
def dumpsArrTail : JsonArr → List Char
  | .anil => []
  | .acons j t => ',' :: ' ' :: dumpsVal j ++ dumpsArrTail t

/-- Remaining object members, each preceded by the `", "` separator. -/
def dumpsObjTail : JsonObj → List Char
  | .onil => []
  | .ocons k v t => ',' :: ' ' :: '"' :: escStr k ++ '"' :: ':' :: ' ' :: dumpsVal v ++ dumpsObjTail t

end

/-- `json.dumps` returning a Python string. -/
def dumps (j : Json) : Str := dumpsVal j

/-! ## The parser: `json.loads` -/

/-- JSON whitespace (`' \t\n\r'`). -/
def isJsonWs (c : Char) : Bool := c = ' ' || c = '\t' || c = '\n' || c = '\r'

/-- Skip JSON whitespace. -/
def skipWs (cs : List Char) : List Char := cs.dropWhile isJsonWs

/-- Value of a hex digit (upper or lower case), as Python's scanner accepts. -/
def hexVal (c : Char) : Option Nat :=
  if '0' ≤ c ∧ c ≤ '9' then some (c.toNat - 48)
  else if 'a' ≤ c ∧ c ≤ 'f' then some (c.toNat - 87)
  else if 'A' ≤ c ∧ c ≤ 'F' then some (c.toNat - 55)
  else none

/-- Read four hex digits. -/
def parseHex4 : List Char → Option (Nat × List Char)
  | a :: b :: c :: d :: rest => do
      let va ← hexVal a
      let vb ← hexVal b
      let vc ← hexVal c
      let vd ← hexVal d
      some (((va * 16 + vb) * 16 + vc) * 16 + vd, rest)
  | _ => none

/-- The character for a short escape (`\" \\ \/ \b \f \n \r \t`). -/
def unescChar (c : Char) : Option Char :=
  if c = '"' then some '"'
  else if c = '\\' then some '\\'
  else if c = '/' then some '/'
  else if c = 'b' then some (Char.ofNat 8)
  else if c = 'f' then some (Char.ofNat 12)
  else if c = 'n' then some '\n'
  else if c = 'r' then some '\r'
  else if c = 't' then some '\t'
  else none

/-- After a high-surrogate `\u` escape with code unit `n`: expect a
low-surrogate escape and combine the pair into one character. -/
def strEscPair (recur : List Char → Option (Str × List Char)) (n : Nat) :
    List Char → Option (Str × List Char)
  | b1 :: b2 :: r4 =>
    if b1 = '\\' ∧ b2 = 'u' then
      match parseHex4 r4 with
      | none => none
      | some (m, r5) =>
        if 0xDC00 ≤ m ∧ m ≤ 0xDFFF then
          match recur r5 with
          | none => none
          | some (s, r6) =>
              some (Char.ofNat (0x10000 + (n - 0xD800) * 0x400 + (m - 0xDC00)) :: s, r6)
        else none
    else none
  | _ => none

/-- Resume scanning a string body after a `\u` escape whose code unit `n` has
been read: a high surrogate must be followed by a low-surrogate escape. -/
def strEscCont (recur : List Char → Option (Str × List Char)) (n : Nat) (r3 : List Char) :
    Option (Str × List Char) :=
  if 0xD800 ≤ n ∧ n ≤ 0xDBFF then strEscPair recur n r3
  else if 0xDC00 ≤ n ∧ n ≤ 0xDFFF then none
  else
    match recur r3 with
    | none => none
    | some (s, r4) => some (Char.ofNat n :: s, r4)

/-- Scan a string body after the opening quote, handling escapes and surrogate
pairs, rejecting raw control characters (`strict=True`).  Fuel decreases once
per produced character. -/
def parseStrBody : Nat → List Char → Option (Str × List Char)
  | 0, _ => none
  | fuel+1, cs =>
    match cs with
    | [] => none
    | c :: rest =>
      if c = '"' then some ([], rest)
      else if c = '\\' then
        match rest with
        | [] => none
        | e :: r2 =>
          if e = 'u' then
            match parseHex4 r2 with
            | none => none
            | some (n, r3) => strEscCont (parseStrBody fuel) n r3
          else
            match unescChar e with
            | none => none
            | some uc =>
              match parseStrBody fuel r2 with
              | none => none
              | some (s, r3) => some (uc :: s, r3)
      else if c.toNat < 0x20 then none
      else
        match parseStrBody fuel rest with
        | none => none
        | some (s, r2) => some (c :: s, r2)

/-- Read an unsigned JSON integer (no leading zeros); rejects a following
`.`/`e`/`E` since the embedding does not model floats. -/
def parseNatNum (cs : List Char) : Option (Nat × List Char) :=
  let digits := cs.takeWhile isDigitCh
  let rest := cs.dropWhile isDigitCh
  if digits = [] then none
  else if digits.head? = some '0' ∧ digits.length ≠ 1 then none
  else
    match rest with
    | c :: _ => if c = '.' ∨ c = 'e' ∨ c = 'E' then none else some (digitsVal digits, rest)
    | [] => some (digitsVal digits, rest)

mutual

/-- Parse one JSON value starting at the head of the input (no leading
whitespace). -/
def parseValue : Nat → List Char → Option (Json × List Char)
  | 0, _ => none
  | fuel+1, cs =>
    match cs with
    | [] => none
    | c :: rest =>
      if c = '"' then
        match parseStrBody (rest.length + 1) rest with
        | none => none
        | some (s, r2) => some (.str s, r2)
      else if c = '{' then
        match skipWs rest with
        | [] => none
        | c2 :: r2 =>
          if c2 = '}' then some (.obj .onil, r2)
          else if c2 = '"' then
            match parseStrBody (r2.length + 1) r2 with
            | none => none
            | some (k, r3) =>
              match skipWs r3 with
              | [] => none
              | c3 :: r4 =>
                if c3 = ':' then
                  match parseValue fuel (skipWs r4) with
                  | none => none
                  | some (v, r5) =>
                    match parseObjTail fuel r5 with
                    | none => none
                    | some (t, r6) => some (.obj (.ocons k v t), r6)
                else none
          else none
      else if c = '[' then
        match skipWs rest with
        | [] => none
        | c2 :: r2 =>
          if c2 = ']' then some (.arr .anil, r2)
          else
            match parseValue fuel (c2 :: r2) with
            | none => none
            | some (v, r3) =>
              match parseArrTail fuel r3 with
              | none => none
              | some (t, r4) => some (.arr (.acons v t), r4)
      else if c = 'n' then
        match rest with
        | 'u' :: 'l' :: 'l' :: r2 => some (.null, r2)
        | _ => none
      else if c = 't' then
        match rest with
        | 'r' :: 'u' :: 'e' :: r2 => some (.bool true, r2)
        | _ => none
      else if c = 'f' then
        match rest with
        | 'a' :: 'l' :: 's' :: 'e' :: r2 => some (.bool false, r2)
        | _ => none
      else if c = '-' then
        match parseNatNum rest with
        | none => none
        | some (n, r2) => some (.num (-(n : Int)), r2)
      else if isDigitCh c then
        match parseNatNum (c :: rest) with
        | none => none
        | some (n, r2) => some (.num (n : Int), r2)
      else none

/-- After an array item: a `,` and another item, or the closing `]`. -/
def parseArrTail : Nat → List Char → Option (JsonArr × List Char)
  | 0, _ => none
  | fuel+1, cs =>
    match skipWs cs with
    | [] => none
    | c :: rest =>
      if c = ']' then some (.anil, rest)
      else if c = ',' then
        match parseValue fuel (skipWs rest) with
        | none => none
        | some (v, r2) =>
          match parseArrTail fuel r2 with
          | none => none
          | some (t, r3) => some (.acons v t, r3)
      else none

/-- After an object member: a `,` and another member, or the closing `}`. -/
def parseObjTail : Nat → List Char → Option (JsonObj × List Char)
  | 0, _ => none
  | fuel+1, cs =>
    match skipWs cs with
    | [] => none
    | c :: rest =>
      if c = '}' then some (.onil, rest)
      else if c = ',' then
        match skipWs rest with
        | [] => none
        | c2 :: r2 =>
          if c2 = '"' then
            match parseStrBody (r2.length + 1) r2 with
            | none => none
            | some (k, r3) =>
              match skipWs r3 with
              | [] => none
              | c3 :: r4 =>
                if c3 = ':' then
                  match parseValue fuel (skipWs r4) with
                  | none => none
                  | some (v, r5) =>
                    match parseObjTail fuel r5 with
                    | none => none
                    | some (t, r6) => some (.ocons k v t, r6)
                else none
          else none
      else none

end

/-- `json.loads`: skip leading whitespace, read one value, and require only
whitespace to follow (`Extra data` otherwise). -/
def loadsStr (cs : Str) : Except Unit Json :=
  match parseValue (cs.length + 1) (skipWs cs) with
  | none => .error ()
  | some (v, rest) => if skipWs rest = [] then .ok v else .error ()

deriving instance DecidableEq for Except

/-! ## Round trip of the codec text layer: `loads (dumps j) = ok j` -/

theorem char_valid_range (c : Char) :
    c.toNat < 0xD800 ∨ (0xDFFF < c.toNat ∧ c.toNat < 0x110000) := by
  rcases c.valid with h | h
  · exact Or.inl h
  · exact Or.inr h

theorem digitChar_toNat : ∀ d, d < 10 → (digitChar d).toNat = 48 + d := by decide

theorem digitChar_isDigit : ∀ d, d < 10 → isDigitCh (digitChar d) = true := by decide

theorem digitChar_ne_zero : ∀ d, d < 10 → 0 < d → digitChar d ≠ '0' := by
  decide

theorem isDigitCh_toNat {c : Char} (h : isDigitCh c = true) :
    48 ≤ c.toNat ∧ c.toNat ≤ 57 := by
  simp only [isDigitCh, Bool.and_eq_true, decide_eq_true_eq] at h
  obtain ⟨h1, h2⟩ := h
  constructor
  · exact h1
  · exact h2

theorem digit_ne {c : Char} (h : isDigitCh c = true) {d : Char}
    (hd : isDigitCh d = false) : c ≠ d := by
  intro he
  subst he
  rw [h] at hd
  exact absurd hd (by decide)

theorem digit_not_ws {c : Char} (h : isDigitCh c = true) : isJsonWs c = false := by
  cases hw : isJsonWs c
  · rfl
  · exfalso
    simp only [isJsonWs, Bool.or_eq_true, decide_eq_true_eq] at hw
    rcases hw with ((rfl | rfl) | rfl) | rfl <;> exact absurd h (by decide)

theorem hexVal_hexDigit : ∀ d, d < 16 → hexVal (hexDigit d) = some d := by decide

theorem parseHex4_hex4 (n : Nat) (h : n < 0x10000) (rest : List Char) :
    parseHex4 (hex4 n ++ rest) = some (n, rest) := by
  have h1 : n / 4096 % 16 < 16 := Nat.mod_lt _ (by norm_num)
  have h2 : n / 256 % 16 < 16 := Nat.mod_lt _ (by norm_num)
  have h3 : n / 16 % 16 < 16 := Nat.mod_lt _ (by norm_num)
  have h4 : n % 16 < 16 := Nat.mod_lt _ (by norm_num)
  show parseHex4 (hexDigit (n / 4096 % 16) :: hexDigit (n / 256 % 16) ::
      hexDigit (n / 16 % 16) :: hexDigit (n % 16) :: rest) = some (n, rest)
  rw [parseHex4]
  rw [hexVal_hexDigit _ h1, hexVal_hexDigit _ h2, hexVal_hexDigit _ h3, hexVal_hexDigit _ h4]
  show some ((((n / 4096 % 16) * 16 + n / 256 % 16) * 16 + n / 16 % 16) * 16 + n % 16, rest)
      = some (n, rest)
  congr 2
  omega

theorem natCharsAux_zero : ∀ fuel, natCharsAux fuel 0 = [] := by
  intro fuel
  cases fuel with
  | zero => rfl
  | succ f => rw [natCharsAux, if_pos rfl]

theorem natCharsAux_digits : ∀ fuel n c, c ∈ natCharsAux fuel n → isDigitCh c = true := by
  intro fuel
  induction fuel with
  | zero => intro n c h; simp [natCharsAux] at h
  | succ f ih =>
    intro n c h
    rw [natCharsAux] at h
    by_cases hn : n = 0
    · rw [if_pos hn] at h; simp at h
    · rw [if_neg hn] at h
      rcases List.mem_append.mp h with h1 | h1
      · exact ih _ _ h1
      · rcases List.mem_singleton.mp h1 with rfl
        exact digitChar_isDigit _ (Nat.mod_lt _ (by norm_num))

theorem digitsVal_append_digit (l : List Char) (d : Char) :
    digitsVal (l ++ [d]) = 10 * digitsVal l + (d.toNat - 48) := by
  simp [digitsVal, List.foldl_append]

theorem natCharsAux_val : ∀ fuel n, n ≤ fuel → digitsVal (natCharsAux fuel n) = n := by
  intro fuel
  induction fuel with
  | zero => intro n h; interval_cases n; simp [natCharsAux, digitsVal]
  | succ f ih =>
    intro n h
    rw [natCharsAux]
    by_cases hn : n = 0
    · rw [if_pos hn, hn]; simp [digitsVal]
    · rw [if_neg hn, digitsVal_append_digit, ih (n / 10) (by omega),
        digitChar_toNat _ (Nat.mod_lt _ (by norm_num))]
      omega

theorem natCharsAux_ne_nil_head : ∀ fuel n, n ≠ 0 → n ≤ fuel →
    ∃ c cs, natCharsAux fuel n = c :: cs ∧ c ≠ '0' := by
  intro fuel
  induction fuel with
  | zero => intro n h hle; omega
  | succ f ih =>
    intro n h hle
    rw [natCharsAux, if_neg h]
    by_cases hsm : n < 10
    · have h10 : n / 10 = 0 := Nat.div_eq_of_lt hsm
      rw [h10]
      refine ⟨digitChar (n % 10), [], ?_, ?_⟩
      · rw [natCharsAux_zero]; rfl
      · have : n % 10 = n := Nat.mod_eq_of_lt hsm
        rw [this]
        exact digitChar_ne_zero n (by omega) (by omega)
    · obtain ⟨c, cs, hcs, hc⟩ := ih (n / 10) (by omega) (by omega)
      exact ⟨c, cs ++ [digitChar (n % 10)], by rw [hcs]; rfl, hc⟩

theorem natChars_ne_nil (n : Nat) : natChars n ≠ [] := by
  rw [natChars]
  by_cases hn : n = 0
  · rw [if_pos hn]; simp
  · rw [if_neg hn]
    obtain ⟨c, cs, hcs, _⟩ := natCharsAux_ne_nil_head (n+1) n hn (by omega)
    rw [hcs]; simp

theorem natChars_digits (n : Nat) : ∀ c ∈ natChars n, isDigitCh c = true := by
  intro c hc
  rw [natChars] at hc
  by_cases hn : n = 0
  · rw [if_pos hn] at hc
    rcases List.mem_singleton.mp hc with rfl
    decide
  · rw [if_neg hn] at hc
    exact natCharsAux_digits _ _ _ hc

theorem natChars_val (n : Nat) : digitsVal (natChars n) = n := by
  rw [natChars]
  by_cases hn : n = 0
  · rw [if_pos hn, hn]; decide
  · rw [if_neg hn]; exact natCharsAux_val _ _ (by omega)

theorem natChars_head_zero (n : Nat) :
    (natChars n).head? = some '0' → (natChars n).length = 1 := by
  intro h
  rw [natChars] at h ⊢
  by_cases hn : n = 0
  · rw [if_pos hn]; rfl
  · rw [if_neg hn] at h ⊢
    obtain ⟨c, cs, hcs, hc⟩ := natCharsAux_ne_nil_head (n+1) n hn (by omega)
    rw [hcs] at h
    simp at h
    exact absurd h hc

theorem takeWhile_append_eq (p : Char → Bool) (l r : List Char)
    (hl : ∀ c ∈ l, p c = true) (hr : ∀ c cs, r = c :: cs → p c = false) :
    (l ++ r).takeWhile p = l ∧ (l ++ r).dropWhile p = r := by
  induction l with
  | nil =>
    simp only [List.nil_append]
    cases r with
    | nil => simp
    | cons c cs =>
      have := hr c cs rfl
      constructor
      · simp [List.takeWhile_cons, this]
      · simp [List.dropWhile_cons, this]
  | cons c l2 ih =>
    have hc := hl c (by simp)
    have ihr := ih (fun x hx => hl x (by simp [hx]))
    constructor
    · simp [List.takeWhile_cons, hc, ihr.1]
    · simp [List.dropWhile_cons, hc, ihr.2]

theorem parseNatNum_natChars (n : Nat) (rest : List Char)
    (hrest : ∀ c cs, rest = c :: cs → isDigitCh c = false ∧ c ≠ '.' ∧ c ≠ 'e' ∧ c ≠ 'E') :
    parseNatNum (natChars n ++ rest) = some (n, rest) := by
  obtain ⟨ht, hd⟩ := takeWhile_append_eq isDigitCh (natChars n) rest (natChars_digits n)
    (fun c cs h => (hrest c cs h).1)
  rw [parseNatNum]
  simp only [ht, hd]
  rw [if_neg (natChars_ne_nil n)]
  rw [if_neg (by
    intro hcon
    exact hcon.2 (natChars_head_zero n hcon.1))]
  cases hr : rest with
  | nil => rw [natChars_val]
  | cons c cs =>
    obtain ⟨_, h1, h2, h3⟩ := hrest c cs hr
    show (if c = '.' ∨ c = 'e' ∨ c = 'E' then none
        else some (digitsVal (natChars n), c :: cs)) = some (n, c :: cs)
    rw [if_neg (by
      intro hor
      rcases hor with h | h | h
      · exact h1 h
      · exact h2 h
      · exact h3 h)]
    rw [natChars_val]

theorem escStr_nil : escStr [] = [] := rfl

theorem escStr_cons (c : Char) (s : Str) : escStr (c :: s) = escChar c ++ escStr s := rfl

theorem escChar_length_pos (c : Char) : 1 ≤ (escChar c).length := by
  rw [escChar]
  split_ifs <;> simp [uEscape, hex4]

theorem escStr_length (s : Str) : s.length ≤ (escStr s).length := by
  induction s with
  | nil => simp [escStr_nil]
  | cons c s2 ih =>
    rw [escStr_cons, List.length_append, List.length_cons]
    have := escChar_length_pos c
    omega

theorem parseStrBody_uEscape (f n : Nat) (hn : n < 0x10000) (X : List Char) :
    parseStrBody (f+1) ('\\' :: 'u' :: (hex4 n ++ X)) = strEscCont (parseStrBody f) n X := by
  simp only [parseStrBody]
  rw [if_neg (by decide : ¬('\\' : Char) = '"'), if_pos trivial, if_pos trivial,
    parseHex4_hex4 n hn X]

theorem parseStrBody_escStr : ∀ (s : Str) (rest : List Char) (fuel : Nat),
    s.length < fuel → parseStrBody fuel (escStr s ++ '"' :: rest) = some (s, rest) := by
  intro s
  induction s with
  | nil =>
    intro rest fuel h
    cases fuel with
    | zero => omega
    | succ f => simp [escStr_nil, parseStrBody]
  | cons c s2 ih =>
    intro rest fuel h
    cases fuel with
    | zero => omega
    | succ f =>
    have hIH : parseStrBody f (escStr s2 ++ '"' :: rest) = some (s2, rest) :=
      ih rest f (by simp at h; omega)
    rw [escStr_cons, List.append_assoc]
    by_cases h1 : c = '"'
    · subst h1; simp [escChar, parseStrBody, unescChar, hIH]
    by_cases h2 : c = '\\'
    · subst h2; simp [escChar, parseStrBody, unescChar, hIH]
    by_cases h3 : c = '\n'
    · subst h3; simp [escChar, parseStrBody, unescChar, hIH]
    by_cases h4 : c = '\r'
    · subst h4; simp [escChar, parseStrBody, unescChar, hIH]
    by_cases h5 : c = '\t'
    · subst h5; simp [escChar, parseStrBody, unescChar, hIH]
    by_cases h6 : c.toNat = 8
    · have hc : c = Char.ofNat 8 := by rw [← Char.ofNat_toNat c, h6]
      subst hc
      simp [escChar, parseStrBody, unescChar, hIH]
    by_cases h7 : c.toNat = 12
    · have hc : c = Char.ofNat 12 := by rw [← Char.ofNat_toNat c, h7]
      subst hc
      simp [escChar, parseStrBody, unescChar, hIH]
    by_cases h8 : 0x20 ≤ c.toNat ∧ c.toNat ≤ 0x7e
    · rw [escChar, if_neg h1, if_neg h2, if_neg h3, if_neg h4, if_neg h5,
        if_neg h6, if_neg h7, if_pos h8]
      show parseStrBody (f+1) (c :: (escStr s2 ++ '"' :: rest)) = some (c :: s2, rest)
      simp only [parseStrBody]
      rw [if_neg h1, if_neg h2, if_neg (by omega), hIH]
    by_cases h9 : c.toNat ≤ 0xFFFF
    · rw [escChar, if_neg h1, if_neg h2, if_neg h3, if_neg h4, if_neg h5,
        if_neg h6, if_neg h7, if_neg h8, if_pos h9]
      have hval := char_valid_range c
      show parseStrBody (f+1)
          ('\\' :: 'u' :: (hex4 c.toNat ++ (escStr s2 ++ '"' :: rest))) = some (c :: s2, rest)
      rw [parseStrBody_uEscape f c.toNat (by omega), strEscCont,
        if_neg (by omega), if_neg (by omega), hIH, Char.ofNat_toNat]
    · rw [escChar, if_neg h1, if_neg h2, if_neg h3, if_neg h4, if_neg h5,
        if_neg h6, if_neg h7, if_neg h8, if_neg h9]
      have hval := char_valid_range c
      have hlow : c.toNat < 0x110000 := by omega
      have hhigh : 0xFFFF < c.toNat := by omega
      show parseStrBody (f+1)
          ('\\' :: 'u' :: (hex4 (0xD800 + (c.toNat - 0x10000) / 0x400) ++
            ('\\' :: 'u' :: (hex4 (0xDC00 + (c.toNat - 0x10000) % 0x400) ++
              (escStr s2 ++ '"' :: rest))))) = some (c :: s2, rest)
      rw [parseStrBody_uEscape f _ (by omega), strEscCont, if_pos (by omega)]
      have hpair : (('\\' : Char) = '\\' ∧ ('u' : Char) = 'u') := by decide
      simp only [strEscPair, if_pos hpair]
      rw [parseHex4_hex4 _ (by omega)]
      simp [hIH]
      refine ⟨by omega, ?_⟩
      rw [show 65536 + (c.toNat - 65536) / 1024 * 1024 + (c.toNat - 65536) % 1024
          = c.toNat from by omega, Char.ofNat_toNat]

/-- Output positions that may legally follow a printed value inside a document:
end of input, or a separator / closing bracket. -/
def SepOk (cs : List Char) : Prop :=
  cs = [] ∨ ∃ c cs2, cs = c :: cs2 ∧ (c = ',' ∨ c = ']' ∨ c = '}')

theorem skipWs_not_ws {c : Char} (h : isJsonWs c = false) (cs : List Char) :
    skipWs (c :: cs) = c :: cs := by
  simp [skipWs, List.dropWhile_cons, h]

theorem skipWs_space (cs : List Char) : skipWs (' ' :: cs) = skipWs cs := by
  simp [skipWs, List.dropWhile_cons, show isJsonWs ' ' = true from by decide]

theorem sepOk_boundary {rest : List Char} (h : SepOk rest) :
    ∀ c cs, rest = c :: cs → isDigitCh c = false ∧ c ≠ '.' ∧ c ≠ 'e' ∧ c ≠ 'E' := by
  intro c cs hr
  rcases h with h | ⟨c2, cs2, heq, hc2⟩
  · rw [h] at hr; cases hr
  · rw [heq] at hr
    injection hr with h1 h2
    subst h1
    rcases hc2 with rfl | rfl | rfl <;> refine ⟨by decide, by decide, by decide, by decide⟩

theorem sepOk_arrTail (t : JsonArr) (rest : List Char) :
    SepOk (dumpsArrTail t ++ ']' :: rest) := by
  cases t with
  | anil => exact Or.inr ⟨']', rest, rfl, Or.inr (Or.inl rfl)⟩
  | acons j t2 => exact Or.inr ⟨',', _, rfl, Or.inl rfl⟩

theorem sepOk_objTail (t : JsonObj) (rest : List Char) :
    SepOk (dumpsObjTail t ++ '}' :: rest) := by
  cases t with
  | onil => exact Or.inr ⟨'}', rest, rfl, Or.inr (Or.inr rfl)⟩
  | ocons k v t2 => exact Or.inr ⟨',', _, rfl, Or.inl rfl⟩

theorem dumpsVal_head (j : Json) : ∃ c cs2, dumpsVal j = c :: cs2 ∧ isJsonWs c = false ∧
    c ≠ ']' ∧ c ≠ '}' := by
  cases j with
  | null =>
    refine ⟨'n', _, rfl, ?_, ?_, ?_⟩ <;> decide
  | bool b =>
    cases b with
    | true =>
      refine ⟨'t', _, rfl, ?_, ?_, ?_⟩ <;> decide
    | false =>
      refine ⟨'f', _, rfl, ?_, ?_, ?_⟩ <;> decide
  | num i =>
    show ∃ c cs2, intChars i = c :: cs2 ∧ _
    rw [intChars]
    by_cases hi : i < 0
    · rw [if_pos hi]
      refine ⟨'-', _, rfl, ?_, ?_, ?_⟩ <;> decide
    · rw [if_neg hi]
      obtain ⟨c0, cs0, hnc⟩ := List.exists_cons_of_ne_nil (natChars_ne_nil i.natAbs)
      have hdig : isDigitCh c0 = true := natChars_digits _ c0 (by rw [hnc]; simp)
      refine ⟨c0, cs0, hnc, digit_not_ws hdig, digit_ne hdig ?_, digit_ne hdig ?_⟩ <;>
        decide
  | str s =>
    refine ⟨'"', _, rfl, ?_, ?_, ?_⟩ <;> decide
  | arr a =>
    cases a with
    | anil =>
      refine ⟨'[', _, rfl, ?_, ?_, ?_⟩ <;> decide
    | acons j2 t =>
      refine ⟨'[', _, rfl, ?_, ?_, ?_⟩ <;> decide
  | obj o =>
    cases o with
    | onil =>
      refine ⟨'\x7b', _, rfl, ?_, ?_, ?_⟩ <;> decide
    | ocons k v t =>
      refine ⟨'\x7b', _, rfl, ?_, ?_, ?_⟩ <;> decide

mutual

/-- Parse-fuel weight of a value. -/
def weightV : Json → Nat
  | .null => 1
  | .bool _ => 1
  | .num _ => 1
  | .str _ => 1
  | .arr a => 1 + weightA a
  | .obj o => 1 + weightO o

/-- Parse-fuel weight of remaining array items. -/
def weightA : JsonArr → Nat
  | .anil => 0
  | .acons j t => 1 + weightV j + weightA t

/-- Parse-fuel weight of remaining object members. -/
def weightO : JsonObj → Nat
  | .onil => 0
  | .ocons _ v t => 1 + weightV v + weightO t

end

theorem weightV_pos (j : Json) : 1 ≤ weightV j := by
  cases j <;> simp [weightV]

mutual

theorem weightV_le (j : Json) : weightV j ≤ (dumpsVal j).length := by
  cases j with
  | null => decide
  | bool b => cases b <;> decide
  | num i =>
    show 1 ≤ (intChars i).length
    rw [intChars]
    by_cases hi : i < 0
    · rw [if_pos hi]; simp
    · rw [if_neg hi]
      obtain ⟨c0, cs0, hnc⟩ := List.exists_cons_of_ne_nil (natChars_ne_nil i.natAbs)
      rw [hnc]; simp
  | str s => simp [dumpsVal, weightV]
  | arr a =>
    cases a with
    | anil => decide
    | acons j2 t =>
      have h1 := weightV_le j2
      have h2 := weightA_le t
      simp only [dumpsVal, weightV, weightA, List.length_cons, List.length_append]
      omega
  | obj o =>
    cases o with
    | onil => decide
    | ocons k v t =>
      have h1 := weightV_le v
      have h2 := weightO_le t
      simp only [dumpsVal, weightV, weightO, List.length_cons, List.length_append]
      omega

theorem weightA_le (a : JsonArr) : weightA a ≤ (dumpsArrTail a).length := by
  cases a with
  | anil => decide
  | acons j t =>
    have h1 := weightV_le j
    have h2 := weightA_le t
    simp only [dumpsArrTail, weightA, List.length_cons, List.length_append]
    omega

theorem weightO_le (o : JsonObj) : weightO o ≤ (dumpsObjTail o).length := by
  cases o with
  | onil => decide
  | ocons k v t =>
    have h1 := weightV_le v
    have h2 := weightO_le t
    simp only [dumpsObjTail, weightO, List.length_cons, List.length_append]
    omega

end

theorem parse_dumps (fuel : Nat) :
    (∀ j rest, weightV j ≤ fuel → SepOk rest →
      parseValue fuel (dumpsVal j ++ rest) = some (j, rest)) ∧
    (∀ a rest, weightA a < fuel →
      parseArrTail fuel (dumpsArrTail a ++ ']' :: rest) = some (a, rest)) ∧
    (∀ o rest, weightO o < fuel →
      parseObjTail fuel (dumpsObjTail o ++ '}' :: rest) = some (o, rest)) := by
  induction fuel with
  | zero =>
    refine ⟨?_, ?_, ?_⟩
    · intro j rest hw _
      have := weightV_pos j
      omega
    · intro a rest hw
      omega
    · intro o rest hw
      omega
  | succ f ih =>
    obtain ⟨ihv, iha, iho⟩ := ih
    refine ⟨?_, ?_, ?_⟩
    · intro j rest hw hsep
      cases j with
      | null => simp [dumpsVal, parseValue]
      | bool b => cases b <;> simp [dumpsVal, parseValue]
      | str s =>
        have hb : s.length < (escStr s ++ '"' :: rest).length + 1 := by
          have := escStr_length s
          simp only [List.length_append, List.length_cons]
          omega
        simp only [dumpsVal, List.cons_append, List.append_assoc, List.singleton_append,
          List.nil_append]
        simp only [parseValue]
        rw [if_pos trivial, parseStrBody_escStr s rest _ hb]
      | num i =>
        have hbound := sepOk_boundary hsep
        show parseValue (f+1) (intChars i ++ rest) = some (.num i, rest)
        rw [intChars]
        by_cases hi : i < 0
        · rw [if_pos hi]
          have hnum := parseNatNum_natChars i.natAbs rest hbound
          have harg : -((i.natAbs : Nat) : Int) = i := by omega
          simp only [List.cons_append, parseValue]
          simp [hnum, harg]
          rw [abs_of_neg hi, neg_neg]
        · rw [if_neg hi]
          obtain ⟨c0, cs0, hnc⟩ := List.exists_cons_of_ne_nil (natChars_ne_nil i.natAbs)
          have hdig : isDigitCh c0 = true := natChars_digits _ c0 (by rw [hnc]; simp)
          rw [hnc]
          simp only [List.cons_append, parseValue]
          rw [if_neg (digit_ne hdig (by decide)), if_neg (digit_ne hdig (by decide)),
            if_neg (digit_ne hdig (by decide)), if_neg (digit_ne hdig (by decide)),
            if_neg (digit_ne hdig (by decide)), if_neg (digit_ne hdig (by decide)),
            if_neg (digit_ne hdig (by decide)), if_pos hdig]
          rw [← List.cons_append, ← hnc, parseNatNum_natChars i.natAbs rest hbound]
          have harg : (((i.natAbs : Nat) : Int)) = i := by omega
          show some (Json.num ((i.natAbs : Nat) : Int), rest) = some (Json.num i, rest)
          rw [harg]
      | arr a =>
        cases a with
        | anil =>
          simp [dumpsVal, parseValue, skipWs, List.dropWhile_cons,
            show isJsonWs ']' = false from by decide]
        | acons j2 t =>
          obtain ⟨c0, cs0, hhead, hws, hne1, hne2⟩ := dumpsVal_head j2
          have hsep2 : SepOk (dumpsArrTail t ++ ']' :: rest) := sepOk_arrTail t rest
          have hpos := weightV_pos j2
          have hwv : weightV j2 ≤ f := by
            simp only [weightV, weightA] at hw
            omega
          have hwa : weightA t < f := by
            simp only [weightV, weightA] at hw
            omega
          have hv2 : parseValue f (c0 :: (cs0 ++ (dumpsArrTail t ++ ']' :: rest))) =
              some (j2, dumpsArrTail t ++ ']' :: rest) := by
            rw [← List.cons_append, ← hhead]
            exact ihv j2 _ hwv hsep2
          have ha2 := iha t rest hwa
          simp only [dumpsVal, List.cons_append, List.append_assoc]
          simp only [parseValue]
          rw [if_pos trivial, hhead, List.cons_append, skipWs_not_ws hws]
          simp [hne1, hv2, ha2]
      | obj o =>
        cases o with
        | onil =>
          simp [dumpsVal, parseValue, skipWs, List.dropWhile_cons,
            show isJsonWs '}' = false from by decide]
        | ocons k v t =>
          obtain ⟨c0, cs0, hhead, hws, hne1, hne2⟩ := dumpsVal_head v
          have hsep2 : SepOk (dumpsObjTail t ++ '}' :: rest) := sepOk_objTail t rest
          have hpos := weightV_pos v
          have hwv : weightV v ≤ f := by
            simp only [weightV, weightO] at hw
            omega
          have hwo : weightO t < f := by
            simp only [weightV, weightO] at hw
            omega
          have hk2 : parseStrBody ((escStr k ++ '"' :: ':' :: ' ' ::
                (dumpsVal v ++ (dumpsObjTail t ++ '}' :: rest))).length + 1)
                (escStr k ++ '"' :: ':' :: ' ' ::
                (dumpsVal v ++ (dumpsObjTail t ++ '}' :: rest))) =
              some (k, ':' :: ' ' :: (dumpsVal v ++ (dumpsObjTail t ++ '}' :: rest))) := by
            apply parseStrBody_escStr
            have := escStr_length k
            simp only [List.length_append, List.length_cons]
            omega
          simp only [List.length_append, List.length_cons] at hk2
          have hsk1 : skipWs (':' :: ' ' :: (dumpsVal v ++ (dumpsObjTail t ++ '}' :: rest))) =
              ':' :: ' ' :: (dumpsVal v ++ (dumpsObjTail t ++ '}' :: rest)) :=
            skipWs_not_ws (by decide) _
          have hsk2 : skipWs (' ' :: (dumpsVal v ++ (dumpsObjTail t ++ '}' :: rest))) =
              dumpsVal v ++ (dumpsObjTail t ++ '}' :: rest) := by
            rw [skipWs_space, hhead, List.cons_append, skipWs_not_ws hws, ← List.cons_append]
          have hv2 : parseValue f (dumpsVal v ++ (dumpsObjTail t ++ '}' :: rest)) =
              some (v, dumpsObjTail t ++ '}' :: rest) := ihv v _ hwv hsep2
          have ho2 := iho t rest hwo
          simp only [dumpsVal, List.cons_append, List.append_assoc]
          simp only [parseValue]
          rw [if_pos trivial, skipWs_not_ws (by decide)]
          simp [hk2, hsk1, hsk2, hv2, ho2]
    · intro a rest hw
      cases a with
      | anil =>
        simp [dumpsArrTail, parseArrTail, skipWs, List.dropWhile_cons,
          show isJsonWs ']' = false from by decide]
      | acons j t =>
        obtain ⟨c0, cs0, hhead, hws, hne1, hne2⟩ := dumpsVal_head j
        have hsep2 : SepOk (dumpsArrTail t ++ ']' :: rest) := sepOk_arrTail t rest
        have hpos := weightV_pos j
        have hwv : weightV j ≤ f := by
          simp only [weightA] at hw
          omega
        have hwa : weightA t < f := by
          simp only [weightA] at hw
          omega
        have hsk2 : skipWs (' ' :: (dumpsVal j ++ (dumpsArrTail t ++ ']' :: rest))) =
            dumpsVal j ++ (dumpsArrTail t ++ ']' :: rest) := by
          rw [skipWs_space, hhead, List.cons_append, skipWs_not_ws hws, ← List.cons_append]
        have hv2 : parseValue f (dumpsVal j ++ (dumpsArrTail t ++ ']' :: rest)) =
            some (j, dumpsArrTail t ++ ']' :: rest) := ihv j _ hwv hsep2
        have ha2 := iha t rest hwa
        simp only [dumpsArrTail, List.cons_append, List.append_assoc]
        simp only [parseArrTail]
        rw [skipWs_not_ws (by decide)]
        simp [hsk2, hv2, ha2]
    · intro o rest hw
      cases o with
      | onil =>
        simp [dumpsObjTail, parseObjTail, skipWs, List.dropWhile_cons,
          show isJsonWs '}' = false from by decide]
      | ocons k v t =>
        obtain ⟨c0, cs0, hhead, hws, hne1, hne2⟩ := dumpsVal_head v
        have hsep2 : SepOk (dumpsObjTail t ++ '}' :: rest) := sepOk_objTail t rest
        have hpos := weightV_pos v
        have hwv : weightV v ≤ f := by
          simp only [weightO] at hw
          omega
        have hwo : weightO t < f := by
          simp only [weightO] at hw
          omega
        have hk2 : parseStrBody ((escStr k ++ '"' :: ':' :: ' ' ::
              (dumpsVal v ++ (dumpsObjTail t ++ '}' :: rest))).length + 1)
              (escStr k ++ '"' :: ':' :: ' ' ::
              (dumpsVal v ++ (dumpsObjTail t ++ '}' :: rest))) =
            some (k, ':' :: ' ' :: (dumpsVal v ++ (dumpsObjTail t ++ '}' :: rest))) := by
          apply parseStrBody_escStr
          have := escStr_length k
          simp only [List.length_append, List.length_cons]
          omega
        simp only [List.length_append, List.length_cons] at hk2
        have hsk1 : skipWs (':' :: ' ' :: (dumpsVal v ++ (dumpsObjTail t ++ '}' :: rest))) =
            ':' :: ' ' :: (dumpsVal v ++ (dumpsObjTail t ++ '}' :: rest)) :=
          skipWs_not_ws (by decide) _
        have hsk2 : skipWs (' ' :: (dumpsVal v ++ (dumpsObjTail t ++ '}' :: rest))) =
            dumpsVal v ++ (dumpsObjTail t ++ '}' :: rest) := by
          rw [skipWs_space, hhead, List.cons_append, skipWs_not_ws hws, ← List.cons_append]
        have hsk3 : skipWs (' ' :: '"' :: (escStr k ++ '"' :: ':' :: ' ' ::
              (dumpsVal v ++ (dumpsObjTail t ++ '}' :: rest)))) =
            '"' :: (escStr k ++ '"' :: ':' :: ' ' ::
              (dumpsVal v ++ (dumpsObjTail t ++ '}' :: rest))) := by
          rw [skipWs_space]
          exact skipWs_not_ws (by decide) _
        have hv2 : parseValue f (dumpsVal v ++ (dumpsObjTail t ++ '}' :: rest)) =
            some (v, dumpsObjTail t ++ '}' :: rest) := ihv v _ hwv hsep2
        have ho2 := iho t rest hwo
        simp only [dumpsObjTail, List.cons_append, List.append_assoc]
        simp only [parseObjTail]
        rw [skipWs_not_ws (by decide)]
        simp [hsk1, hsk2, hsk3, hk2, hv2, ho2]

/-- `json.loads` inverts `json.dumps` on every modelled JSON value. -/
theorem loads_dumps (j : Json) : loadsStr (dumps j) = .ok j := by
  obtain ⟨c0, cs0, hhead, hws, hx1, hx2⟩ := dumpsVal_head j
  have hfuel : weightV j ≤ (dumpsVal j).length + 1 := by
    have := weightV_le j
    omega
  have hp := (parse_dumps ((dumpsVal j).length + 1)).1 j [] hfuel (Or.inl rfl)
  rw [List.append_nil] at hp
  rw [loadsStr, dumps, hhead, skipWs_not_ws hws, ← hhead, hp]
  rfl

/-! ## base64 (`base64.b64encode` / `base64.b64decode`) -/

/-- The standard base64 alphabet. -/
def b64Alphabet : List Char :=
  "ABCDEFGHIJKLMNOPQRSTUVWXYZabcdefghijklmnopqrstuvwxyz0123456789+/".data

/-- Character for a 6-bit group. -/
def b64Table (i : Nat) : Char := b64Alphabet.getD i 'A'

/-- Is `c` in the base64 alphabet? -/
def isB64Char (c : Char) : Bool :=
  ('A' ≤ c && c ≤ 'Z') || ('a' ≤ c && c ≤ 'z') || ('0' ≤ c && c ≤ '9') || c = '+' || c = '/'

/-- Alphabet characters or the padding character: everything else is discarded
by `b64decode(validate=False)`. -/
def isB64OrPad (c : Char) : Bool := isB64Char c || c = '='

/-- 6-bit value of an alphabet character. -/
def b64CharVal (c : Char) : Option Nat :=
  if 'A' ≤ c ∧ c ≤ 'Z' then some (c.toNat - 65)
  else if 'a' ≤ c ∧ c ≤ 'z' then some (c.toNat - 71)
  else if '0' ≤ c ∧ c ≤ '9' then some (c.toNat + 4)
  else if c = '+' then some 62
  else if c = '/' then some 63
  else none

/-- `base64.b64encode` of a byte list, as the list of encoding characters. -/
def b64encodeChars : List Nat → List Char
  | [] => []
  | [x] => [b64Table (x / 4), b64Table (x % 4 * 16), '=', '=']
  | [x, y] => [b64Table (x / 4), b64Table (x % 4 * 16 + y / 16), b64Table (y % 16 * 4), '=']
  | x :: y :: z :: rest =>
      b64Table (x / 4) :: b64Table (x % 4 * 16 + y / 16) ::
      b64Table (y % 16 * 4 + z / 64) :: b64Table (z % 64) :: b64encodeChars rest

/-- The decode loop of CPython `binascii.a2b_base64` (non-strict): walk the
characters with a quad position, the leftover bits, and a padding count.
Characters outside the alphabet are skipped.  A `=` before quad position 2 is
ignored; at position 2 a second `=` (or at position 3 a first) completes the
quad and decoding STOPS, everything after it discarded.  Input ending mid-quad
is `binascii.Error`. -/
def b64decodeLoop : List Char → Nat → Nat → Nat → List Nat → Except Unit (List Nat)
  | [], qp, _, _, acc => if qp = 0 then .ok acc else .error ()
  | c :: rest, qp, left, pads, acc =>
    if c = '=' then
      if 2 ≤ qp then
        if 4 ≤ qp + (pads + 1) then .ok acc
        else b64decodeLoop rest qp left (pads + 1) acc
      else b64decodeLoop rest qp left pads acc
    else
      match b64CharVal c with
      | none => b64decodeLoop rest qp left pads acc
      | some v =>
        match qp with
        | 0 => b64decodeLoop rest 1 v 0 acc
        | 1 => b64decodeLoop rest 2 (v % 16) 0 (acc ++ [left * 4 + v / 16])
        | 2 => b64decodeLoop rest 3 (v % 4) 0 (acc ++ [left * 16 + v / 4])
        | _ => b64decodeLoop rest 0 0 0 (acc ++ [left * 64 + v])

/-- `base64.b64decode(validate=False)` on ASCII text: run the `a2b_base64`
loop from the initial state. -/
def b64decodeFiltered (cs : List Char) : Except Unit (List Nat) :=
  b64decodeLoop cs 0 0 0 []

theorem b64Table_facts : ∀ i, i < 64 → b64CharVal (b64Table i) = some i ∧
    isB64Char (b64Table i) = true ∧ (b64Table i).toNat < 128 ∧ b64Table i ≠ '=' := by
  decide

theorem b64encodeChars_facts : ∀ bs : List Nat, (∀ x ∈ bs, x < 256) →
    (∀ c ∈ b64encodeChars bs, isB64OrPad c = true ∧ c.toNat < 128) ∧
    (b64encodeChars bs).length % 4 = 0
  | [] => by intro h; exact ⟨by simp [b64encodeChars], by simp [b64encodeChars]⟩
  | [x] => by
    intro h
    have hx : x < 256 := h x (by simp)
    have h1 := b64Table_facts (x / 4) (by omega)
    have h2 := b64Table_facts (x % 4 * 16) (by omega)
    refine ⟨?_, by simp [b64encodeChars]⟩
    intro c hc
    simp only [b64encodeChars, List.mem_cons, List.not_mem_nil, or_false] at hc
    rcases hc with rfl | rfl | rfl | rfl
    · exact ⟨by simp [isB64OrPad, h1.2.1], h1.2.2.1⟩
    · exact ⟨by simp [isB64OrPad, h2.2.1], h2.2.2.1⟩
    · exact ⟨by decide, by decide⟩
    · exact ⟨by decide, by decide⟩
  | [x, y] => by
    intro h
    have hx : x < 256 := h x (by simp)
    have hy : y < 256 := h y (by simp)
    have h1 := b64Table_facts (x / 4) (by omega)
    have h2 := b64Table_facts (x % 4 * 16 + y / 16) (by omega)
    have h3 := b64Table_facts (y % 16 * 4) (by omega)
    refine ⟨?_, by simp [b64encodeChars]⟩
    intro c hc
    simp only [b64encodeChars, List.mem_cons, List.not_mem_nil, or_false] at hc
    rcases hc with rfl | rfl | rfl | rfl
    · exact ⟨by simp [isB64OrPad, h1.2.1], h1.2.2.1⟩
    · exact ⟨by simp [isB64OrPad, h2.2.1], h2.2.2.1⟩
    · exact ⟨by simp [isB64OrPad, h3.2.1], h3.2.2.1⟩
    · exact ⟨by decide, by decide⟩
  | x :: y :: z :: rest => by
    intro h
    have hx : x < 256 := h x (by simp)
    have hy : y < 256 := h y (by simp)
    have hz : z < 256 := h z (by simp)
    have h1 := b64Table_facts (x / 4) (by omega)
    have h2 := b64Table_facts (x % 4 * 16 + y / 16) (by omega)
    have h3 := b64Table_facts (y % 16 * 4 + z / 64) (by omega)
    have h4 := b64Table_facts (z % 64) (by omega)
    have ihr := b64encodeChars_facts rest (fun w hw => h w (by simp [hw]))
    constructor
    · intro c hc
      simp only [b64encodeChars, List.mem_cons] at hc
      rcases hc with rfl | rfl | rfl | rfl | hc
      · exact ⟨by simp [isB64OrPad, h1.2.1], h1.2.2.1⟩
      · exact ⟨by simp [isB64OrPad, h2.2.1], h2.2.2.1⟩
      · exact ⟨by simp [isB64OrPad, h3.2.1], h3.2.2.1⟩
      · exact ⟨by simp [isB64OrPad, h4.2.1], h4.2.2.1⟩
      · exact ihr.1 c hc
    · show (b64encodeChars (x :: y :: z :: rest)).length % 4 = 0
      rw [b64encodeChars]
      simp only [List.length_cons]
      have := ihr.2
      omega

theorem b64decodeLoop_t0 (i : Nat) (hi : i < 64) (rest : List Char)
    (left pads : Nat) (acc : List Nat) :
    b64decodeLoop (b64Table i :: rest) 0 left pads acc = b64decodeLoop rest 1 i 0 acc := by
  have hf := b64Table_facts i hi
  rw [b64decodeLoop, if_neg hf.2.2.2, hf.1]

theorem b64decodeLoop_t1 (i : Nat) (hi : i < 64) (rest : List Char)
    (left pads : Nat) (acc : List Nat) :
    b64decodeLoop (b64Table i :: rest) 1 left pads acc =
      b64decodeLoop rest 2 (i % 16) 0 (acc ++ [left * 4 + i / 16]) := by
  have hf := b64Table_facts i hi
  rw [b64decodeLoop, if_neg hf.2.2.2, hf.1]

theorem b64decodeLoop_t2 (i : Nat) (hi : i < 64) (rest : List Char)
    (left pads : Nat) (acc : List Nat) :
    b64decodeLoop (b64Table i :: rest) 2 left pads acc =
      b64decodeLoop rest 3 (i % 4) 0 (acc ++ [left * 16 + i / 4]) := by
  have hf := b64Table_facts i hi
  rw [b64decodeLoop, if_neg hf.2.2.2, hf.1]

theorem b64decodeLoop_t3 (i : Nat) (hi : i < 64) (rest : List Char)
    (left pads : Nat) (acc : List Nat) :
    b64decodeLoop (b64Table i :: rest) 3 left pads acc =
      b64decodeLoop rest 0 0 0 (acc ++ [left * 64 + i]) := by
  have hf := b64Table_facts i hi
  rw [b64decodeLoop, if_neg hf.2.2.2, hf.1]

theorem b64decodeLoop_encode : ∀ bs : List Nat, (∀ x ∈ bs, x < 256) →
    ∀ acc, b64decodeLoop (b64encodeChars bs) 0 0 0 acc = .ok (acc ++ bs)
  | [] => by
    intro _ acc
    simp [b64encodeChars, b64decodeLoop]
  | [x] => by
    intro h acc
    have hx : x < 256 := h x (by simp)
    show b64decodeLoop [b64Table (x / 4), b64Table (x % 4 * 16), '=', '='] 0 0 0 acc = _
    rw [b64decodeLoop_t0 _ (by omega), b64decodeLoop_t1 _ (by omega)]
    rw [b64decodeLoop, if_pos rfl, if_pos (by omega), if_neg (by omega)]
    rw [b64decodeLoop, if_pos rfl, if_pos (by omega), if_pos (by omega)]
    rw [show x / 4 * 4 + x % 4 * 16 / 16 = x from by omega]
  | [x, y] => by
    intro h acc
    have hx : x < 256 := h x (by simp)
    have hy : y < 256 := h y (by simp)
    show b64decodeLoop [b64Table (x / 4), b64Table (x % 4 * 16 + y / 16),
      b64Table (y % 16 * 4), '='] 0 0 0 acc = _
    rw [b64decodeLoop_t0 _ (by omega), b64decodeLoop_t1 _ (by omega),
      b64decodeLoop_t2 _ (by omega)]
    rw [b64decodeLoop, if_pos rfl, if_pos (by omega), if_pos (by omega)]
    rw [show x / 4 * 4 + (x % 4 * 16 + y / 16) / 16 = x from by omega]
    rw [show (x % 4 * 16 + y / 16) % 16 * 16 + y % 16 * 4 / 4 = y from by omega]
    rw [List.append_assoc]
    rfl
  | x :: y :: z :: rest => by
    intro h acc
    have hx : x < 256 := h x (by simp)
    have hy : y < 256 := h y (by simp)
    have hz : z < 256 := h z (by simp)
    have ih := b64decodeLoop_encode rest (fun w hw => h w (by simp [hw]))
      (acc ++ [x, y, z])
    show b64decodeLoop (b64Table (x / 4) :: b64Table (x % 4 * 16 + y / 16) ::
      b64Table (y % 16 * 4 + z / 64) :: b64Table (z % 64) :: b64encodeChars rest)
      0 0 0 acc = _
    rw [b64decodeLoop_t0 _ (by omega), b64decodeLoop_t1 _ (by omega),
      b64decodeLoop_t2 _ (by omega), b64decodeLoop_t3 _ (by omega)]
    rw [show x / 4 * 4 + (x % 4 * 16 + y / 16) / 16 = x from by omega]
    rw [show (x % 4 * 16 + y / 16) % 16 * 16 + (y % 16 * 4 + z / 64) / 4 = y from by omega]
    rw [show (y % 16 * 4 + z / 64) % 4 * 64 + z % 64 = z from by omega]
    rw [show acc ++ [x] ++ [y] ++ [z] = acc ++ [x, y, z] from by simp]
    rw [ih]
    simp

theorem b64decodeFiltered_encode (bs : List Nat) (h : ∀ x ∈ bs, x < 256) :
    b64decodeFiltered (b64encodeChars bs) = .ok bs := by
  rw [b64decodeFiltered, b64decodeLoop_encode bs h []]
  rfl

/-! ## UTF-8 (`str.encode()` / `bytes.decode()`) -/

/-- UTF-8 encoding of one character. -/
def utf8EncodeChar (c : Char) : List Nat :=
  let n := c.toNat
  if n < 0x80 then [n]
  else if n < 0x800 then [0xC0 + n / 64, 0x80 + n % 64]
  else if n < 0x10000 then [0xE0 + n / 4096, 0x80 + n / 64 % 64, 0x80 + n % 64]
  else [0xF0 + n / 0x40000, 0x80 + n / 4096 % 64, 0x80 + n / 64 % 64, 0x80 + n % 64]

/-- `str.encode()`: UTF-8 bytes of a Python string. -/
def utf8Encode (s : Str) : List Nat := s.foldr (fun c acc => utf8EncodeChar c ++ acc) []

/-- Strict UTF-8 decoding (rejecting overlong forms, surrogates and values
beyond `0x10FFFF`, as Python's `bytes.decode`); fuel decreases once per
decoded character. -/
def utf8DecodeAux : Nat → List Nat → Option Str
  | 0, _ => none
  | _+1, [] => some []
  | fuel+1, b :: rest =>
    if b < 0x80 then (utf8DecodeAux fuel rest).map (fun s => Char.ofNat b :: s)
    else if b < 0xC2 then none
    else if b < 0xE0 then
      match rest with
      | b1 :: r2 =>
        if 0x80 ≤ b1 ∧ b1 < 0xC0 then
          (utf8DecodeAux fuel r2).map (fun s => Char.ofNat ((b - 0xC0) * 64 + (b1 - 0x80)) :: s)
        else none
      | [] => none
    else if b < 0xF0 then
      match rest with
      | b1 :: b2 :: r2 =>
        if (0x80 ≤ b1 ∧ b1 < 0xC0) ∧ (0x80 ≤ b2 ∧ b2 < 0xC0) then
          if 0x800 ≤ (b - 0xE0) * 4096 + (b1 - 0x80) * 64 + (b2 - 0x80) ∧
              ((b - 0xE0) * 4096 + (b1 - 0x80) * 64 + (b2 - 0x80) < 0xD800 ∨
               0xDFFF < (b - 0xE0) * 4096 + (b1 - 0x80) * 64 + (b2 - 0x80)) then
            (utf8DecodeAux fuel r2).map
              (fun s => Char.ofNat ((b - 0xE0) * 4096 + (b1 - 0x80) * 64 + (b2 - 0x80)) :: s)
          else none
        else none
      | _ => none
    else if b < 0xF5 then
      match rest with
      | b1 :: b2 :: b3 :: r2 =>
        if (0x80 ≤ b1 ∧ b1 < 0xC0) ∧ (0x80 ≤ b2 ∧ b2 < 0xC0) ∧ (0x80 ≤ b3 ∧ b3 < 0xC0) then
          if 0x10000 ≤ (b - 0xF0) * 0x40000 + (b1 - 0x80) * 4096 + (b2 - 0x80) * 64 + (b3 - 0x80) ∧
              (b - 0xF0) * 0x40000 + (b1 - 0x80) * 4096 + (b2 - 0x80) * 64 + (b3 - 0x80)
                < 0x110000 then
            (utf8DecodeAux fuel r2).map
              (fun s => Char.ofNat ((b - 0xF0) * 0x40000 + (b1 - 0x80) * 4096 +
                (b2 - 0x80) * 64 + (b3 - 0x80)) :: s)
          else none
        else none
      | _ => none
    else none

/-- `bytes.decode()`: strict UTF-8 decoding of a byte list. -/
def utf8Decode (bs : List Nat) : Option Str := utf8DecodeAux (bs.length + 1) bs

/-- The string a byte list of ASCII values decodes to. -/
def asciiStr (bs : List Nat) : Str := bs.map Char.ofNat

theorem utf8Encode_nil : utf8Encode [] = [] := rfl

theorem utf8Encode_cons (c : Char) (s : Str) :
    utf8Encode (c :: s) = utf8EncodeChar c ++ utf8Encode s := rfl

theorem utf8EncodeChar_length_pos (c : Char) : 1 ≤ (utf8EncodeChar c).length := by
  rw [utf8EncodeChar]
  split_ifs <;> simp

theorem utf8EncodeChar_lt_256 (c : Char) : ∀ x ∈ utf8EncodeChar c, x < 256 := by
  have hval := char_valid_range c
  intro x hx
  rw [utf8EncodeChar] at hx
  split_ifs at hx <;> simp at hx <;> omega

theorem utf8DecodeAux_encChar (c : Char) (fuel : Nat) (B : List Nat) :
    utf8DecodeAux (fuel+1) (utf8EncodeChar c ++ B) =
      (utf8DecodeAux fuel B).map (fun s => c :: s) := by
  have hval := char_valid_range c
  rw [utf8EncodeChar]
  by_cases h1 : c.toNat < 0x80
  · rw [if_pos h1]
    show utf8DecodeAux (fuel+1) (c.toNat :: B) = _
    simp only [utf8DecodeAux]
    rw [if_pos h1, Char.ofNat_toNat]
  by_cases h2 : c.toNat < 0x800
  · rw [if_neg h1, if_pos h2]
    show utf8DecodeAux (fuel+1) ((0xC0 + c.toNat / 64) :: (0x80 + c.toNat % 64) :: B) = _
    simp only [utf8DecodeAux]
    rw [if_neg (by omega), if_neg (by omega), if_pos (by omega)]
    rw [if_pos (by omega : (0x80:Nat) ≤ 0x80 + c.toNat % 64 ∧ 0x80 + c.toNat % 64 < 0xC0)]
    have harith : (0xC0 + c.toNat / 64 - 0xC0) * 64 + (0x80 + c.toNat % 64 - 0x80)
        = c.toNat := by omega
    rw [harith, Char.ofNat_toNat]
  by_cases h3 : c.toNat < 0x10000
  · rw [if_neg h1, if_neg h2, if_pos h3]
    show utf8DecodeAux (fuel+1) ((0xE0 + c.toNat / 4096) :: (0x80 + c.toNat / 64 % 64) ::
        (0x80 + c.toNat % 64) :: B) = _
    simp only [utf8DecodeAux]
    rw [if_neg (by omega), if_neg (by omega), if_neg (by omega), if_pos (by omega)]
    rw [if_pos (by refine ⟨⟨by omega, by omega⟩, by omega, by omega⟩ :
      ((0x80:Nat) ≤ 0x80 + c.toNat / 64 % 64 ∧ 0x80 + c.toNat / 64 % 64 < 0xC0) ∧
      (0x80:Nat) ≤ 0x80 + c.toNat % 64 ∧ 0x80 + c.toNat % 64 < 0xC0)]
    rw [if_pos (by constructor <;> omega :
      (0x800:Nat) ≤ (0xE0 + c.toNat / 4096 - 0xE0) * 4096 + (0x80 + c.toNat / 64 % 64 - 0x80) * 64
        + (0x80 + c.toNat % 64 - 0x80) ∧
      ((0xE0 + c.toNat / 4096 - 0xE0) * 4096 + (0x80 + c.toNat / 64 % 64 - 0x80) * 64
        + (0x80 + c.toNat % 64 - 0x80) < 0xD800 ∨
       0xDFFF < (0xE0 + c.toNat / 4096 - 0xE0) * 4096 + (0x80 + c.toNat / 64 % 64 - 0x80) * 64
        + (0x80 + c.toNat % 64 - 0x80)))]
    have harith : (0xE0 + c.toNat / 4096 - 0xE0) * 4096 + (0x80 + c.toNat / 64 % 64 - 0x80) * 64
        + (0x80 + c.toNat % 64 - 0x80) = c.toNat := by omega
    rw [harith, Char.ofNat_toNat]
  · rw [if_neg h1, if_neg h2, if_neg h3]
    show utf8DecodeAux (fuel+1) ((0xF0 + c.toNat / 0x40000) :: (0x80 + c.toNat / 4096 % 64) ::
        (0x80 + c.toNat / 64 % 64) :: (0x80 + c.toNat % 64) :: B) = _
    simp only [utf8DecodeAux]
    rw [if_neg (by omega), if_neg (by omega), if_neg (by omega), if_neg (by omega),
      if_pos (by omega)]
    rw [if_pos (by refine ⟨⟨by omega, by omega⟩, ⟨by omega, by omega⟩, by omega, by omega⟩ :
      ((0x80:Nat) ≤ 0x80 + c.toNat / 4096 % 64 ∧ 0x80 + c.toNat / 4096 % 64 < 0xC0) ∧
      ((0x80:Nat) ≤ 0x80 + c.toNat / 64 % 64 ∧ 0x80 + c.toNat / 64 % 64 < 0xC0) ∧
      (0x80:Nat) ≤ 0x80 + c.toNat % 64 ∧ 0x80 + c.toNat % 64 < 0xC0)]
    rw [if_pos (by constructor <;> omega :
      (0x10000:Nat) ≤ (0xF0 + c.toNat / 0x40000 - 0xF0) * 0x40000 +
        (0x80 + c.toNat / 4096 % 64 - 0x80) * 4096 + (0x80 + c.toNat / 64 % 64 - 0x80) * 64 +
        (0x80 + c.toNat % 64 - 0x80) ∧
      (0xF0 + c.toNat / 0x40000 - 0xF0) * 0x40000 +
        (0x80 + c.toNat / 4096 % 64 - 0x80) * 4096 + (0x80 + c.toNat / 64 % 64 - 0x80) * 64 +
        (0x80 + c.toNat % 64 - 0x80) < 0x110000)]
    have harith : (0xF0 + c.toNat / 0x40000 - 0xF0) * 0x40000 +
        (0x80 + c.toNat / 4096 % 64 - 0x80) * 4096 + (0x80 + c.toNat / 64 % 64 - 0x80) * 64 +
        (0x80 + c.toNat % 64 - 0x80) = c.toNat := by omega
    rw [harith, Char.ofNat_toNat]

theorem utf8DecodeAux_encode (s : Str) : ∀ fuel, s.length < fuel →
    utf8DecodeAux fuel (utf8Encode s) = some s := by
  induction s with
  | nil =>
    intro fuel h
    cases fuel with
    | zero => omega
    | succ f => rw [utf8Encode_nil, utf8DecodeAux]
  | cons c s2 ih =>
    intro fuel h
    cases fuel with
    | zero => omega
    | succ f =>
      rw [utf8Encode_cons, utf8DecodeAux_encChar, ih f (by simp at h; omega)]
      rfl

theorem utf8Decode_encode (s : Str) : utf8Decode (utf8Encode s) = some s := by
  rw [utf8Decode]
  apply utf8DecodeAux_encode
  induction s with
  | nil => simp [utf8Encode_nil]
  | cons c s2 ih =>
    rw [utf8Encode_cons]
    have h1 := utf8EncodeChar_length_pos c
    simp only [List.length_append, List.length_cons]
    omega

theorem utf8DecodeAux_ascii (bs : List Nat) (h : ∀ x ∈ bs, x < 128) :
    ∀ fuel, bs.length < fuel → utf8DecodeAux fuel bs = some (asciiStr bs) := by
  induction bs with
  | nil =>
    intro fuel hf
    cases fuel with
    | zero => omega
    | succ f => rfl
  | cons b rest ih =>
    intro fuel hf
    cases fuel with
    | zero => omega
    | succ f =>
      have hb : b < 128 := h b (by simp)
      simp only [utf8DecodeAux]
      rw [if_pos (by omega : b < 0x80),
        ih (fun x hx => h x (by simp [hx])) f (by simp at hf; omega)]
      rfl

theorem utf8Decode_ascii (bs : List Nat) (h : ∀ x ∈ bs, x < 128) :
    utf8Decode bs = some (asciiStr bs) := by
  rw [utf8Decode]
  exact utf8DecodeAux_ascii bs h _ (by omega)

theorem toNat_ofNat_small : ∀ n, n < 128 → (Char.ofNat n).toNat = n := by
  decide

theorem utf8Encode_asciiStr (bs : List Nat) (h : ∀ x ∈ bs, x < 128) :
    utf8Encode (asciiStr bs) = bs := by
  induction bs with
  | nil => rfl
  | cons b rest ih =>
    have hb : b < 128 := h b (by simp)
    show utf8Encode (Char.ofNat b :: asciiStr rest) = b :: rest
    rw [utf8Encode_cons, ih (fun x hx => h x (by simp [hx]))]
    rw [utf8EncodeChar]
    rw [toNat_ofNat_small b hb]
    rw [if_pos (by omega)]
    rfl

theorem utf8Encode_map_toNat (cs : List Char) (h : ∀ c ∈ cs, c.toNat < 128) :
    utf8Encode cs = cs.map Char.toNat := by
  induction cs with
  | nil => rfl
  | cons c rest ih =>
    have hc : c.toNat < 128 := h c (by simp)
    rw [utf8Encode_cons, ih (fun x hx => h x (by simp [hx]))]
    rw [utf8EncodeChar, if_pos (by omega)]
    rfl

theorem asciiStr_map_toNat (cs : List Char) : asciiStr (cs.map Char.toNat) = cs := by
  induction cs with
  | nil => rfl
  | cons c rest ih =>
    show Char.ofNat c.toNat :: asciiStr (rest.map Char.toNat) = c :: rest
    rw [Char.ofNat_toNat, ih]

/-! ## Python exceptions and dictionary operations -/

/-- The Python exceptions the script can raise or catch. -/
inductive Exc where
  | keyError (k : Str) : Exc
  | typeError : Exc
  | valueError : Exc
  | jsonDecode : Exc
  | unicodeDecode : Exc
deriving DecidableEq

/-- Lookup in an insertion-ordered object (Python dict `[]` read). -/
def JsonObj.lookup : JsonObj → Str → Option Json
  | .onil, _ => none
  | .ocons k v t, key => if k = key then some v else t.lookup key

/-- Python dict assignment: replace in place if the key exists, else append. -/
def JsonObj.set : JsonObj → Str → Json → JsonObj
  | .onil, key, v => .ocons key v .onil
  | .ocons k w t, key, v =>
    if k = key then .ocons k v t else .ocons k w (t.set key v)

/-- Keys of an object, in order. -/
def JsonObj.keys : JsonObj → List Str
  | .onil => []
  | .ocons k _ t => k :: t.keys

/-- Number of members. -/
def JsonObj.size : JsonObj → Nat
  | .onil => 0
  | .ocons _ _ t => 1 + t.size

/-- Lookup on any JSON value: `none` when not an object or key absent. -/
def jLookup (j : Json) (key : Str) : Option Json :=
  match j with
  | .obj o => o.lookup key
  | _ => none

/-- Python `obj[key]` with a string key: `KeyError` on a dict without the key,
`TypeError` on any non-dict. -/
def pyGetItem (j : Json) (key : Str) : Except Exc Json :=
  match j with
  | .obj o =>
    match o.lookup key with
    | some v => .ok v
    | none => .error (.keyError key)
  | _ => .error .typeError

/-- Python `obj[key] = v` with a string key. -/
def pySetItem (j : Json) (key : Str) (v : Json) : Except Exc Json :=
  match j with
  | .obj o => .ok (.obj (o.set key v))
  | _ => .error .typeError

/-- Membership test of an array, by equality with a string. -/
def JsonArr.holdsStr : JsonArr → Str → Bool
  | .anil, _ => false
  | .acons j t, key => j = Json.str key || t.holdsStr key

/-- Is `needle` a contiguous substring of `hay`? (Python `in` on `str`.) -/
def strHasSub (needle : Str) : Str → Bool
  | [] => needle.isPrefixOf []
  | c :: t => needle.isPrefixOf (c :: t) || strHasSub needle t

/-- Python `key in obj` for a string `key`: dict key membership, list element
membership, substring test on strings, `TypeError` otherwise. -/
def pyContains (j : Json) (key : Str) : Except Exc Bool :=
  match j with
  | .obj o => .ok (o.lookup key).isSome
  | .arr a => .ok (a.holdsStr key)
  | .str s => .ok (strHasSub key s)
  | _ => .error .typeError

/-! ## The archive codec of `build.py` -/

/-- The external collaborators of the script: `hashlib.sha256().hexdigest()`
over bytes, and `zlib.compress`/`zlib.decompress`.  They are parameters of the
model; the theorems state the library contracts they are assumed to satisfy as
explicit hypotheses. -/
structure Ctx where
  digest : List Nat → Str
  deflate : List Nat → List Nat
  inflate : List Nat → Except Unit (List Nat)

/-- `compress` (build.py line 120): `base64.b64encode(zlib.compress(
json.dumps(package).encode(), level=zlib.Z_BEST_COMPRESSION))`, as bytes. -/
def compress (ctx : Ctx) (package : Json) : List Nat :=
  (b64encodeChars (ctx.deflate (utf8Encode (dumps package)))).map Char.toNat

/-- Failure points of reading an archive back. -/
inductive DecErr where
  | asciiErr : DecErr
  | padErr : DecErr
  | zlibErr : DecErr
  | utf8Err : DecErr
  | parseErr : DecErr
deriving DecidableEq

/-- The decode steps of `read_package` (build.py line 148):
`json.loads(zlib.decompress(base64.b64decode(data)))` applied to the text read
from the archive file.  `b64decode` of a `str` first requires pure ASCII
(`ValueError` otherwise), then discards non-alphabet characters and checks
padding (`binascii.Error`); `json.loads` of bytes decodes UTF-8 first. -/
def decodeArchive (ctx : Ctx) (data : Str) : Except DecErr Json :=
  if data.all (fun c => c.toNat < 128) then
    match b64decodeFiltered data with
    | .error _ => .error .padErr
    | .ok comp =>
      match ctx.inflate comp with
      | .error _ => .error .zlibErr
      | .ok raw =>
        match utf8Decode raw with
        | none => .error .utf8Err
        | some s =>
          match loadsStr s with
          | .error _ => .error .parseErr
          | .ok j => .ok j
  else .error .asciiErr

mutual

/-- Python `repr` of a JSON-shaped value (string quoting approximated with
single quotes and no escaping; the script only interpolates the manifest's
`version`, a string in practice). -/
def pyRepr : Json → Str
  | .null => "None".data
  | .bool true => "True".data
  | .bool false => "False".data
  | .num i => intChars i
  | .str s => '\'' :: s ++ ['\'']
  | .arr .anil => "[]".data
  | .arr (.acons j t) => '[' :: (pyRepr j ++ pyReprArrTail t) ++ [']']
  | .obj .onil => "\x7b\x7d".data
  | .obj (.ocons k v t) =>
      '\x7b' :: ('\'' :: k ++ '\'' :: ':' :: ' ' :: pyRepr v ++ pyReprObjTail t) ++ ['\x7d']

/-- Remaining repr items of a list. -/
def pyReprArrTail : JsonArr → Str
  | .anil => []
  | .acons j t => ',' :: ' ' :: pyRepr j ++ pyReprArrTail t

/-- Remaining repr items of a dict. -/
def pyReprObjTail : JsonObj → Str
  | .onil => []
  | .ocons k v t => ',' :: ' ' :: '\'' :: k ++ '\'' :: ':' :: ' ' :: pyRepr v ++ pyReprObjTail t

end

/-- Python `str()` as used in the f-string `f"{name}.{package['version']}.ccp"`. -/
def pyToStr : Json → Str
  | .str s => s
  | .num i => intChars i
  | .bool true => "True".data
  | .bool false => "False".data
  | .null => "None".data
  | .arr a => pyRepr (.arr a)
  | .obj o => pyRepr (.obj o)

/-- A JSON value used as a dict subscript.  String keys are used as they are;
other hashable values are folded to the key text `json.dumps` would emit for
them; unhashable lists/dicts raise `TypeError`. -/
def pyDictKey : Json → Except Exc Str
  | .str s => .ok s
  | .num i => .ok (intChars i)
  | .bool true => .ok "true".data
  | .bool false => .ok "false".data
  | .null => .ok "null".data
  | .arr _ => .error .typeError
  | .obj _ => .error .typeError

/-! ## The source tree, the pool, and the build pipeline -/

/-- One package directory of the source tree: its name, the manifest file
content (`none` when `manifest.json` is missing), and the files under
`source/` as relative-path/content pairs (the `os.walk` enumeration of
`get_package_files`). -/
structure SourcePkg where
  name : Str
  manifest : Option Str
  files : List (Str × Str)
deriving DecidableEq

/-- The pool directory: file name to text content, in creation order. -/
abbrev Pool := List (Str × Str)

/-- Read a pool file (`FileNotFoundError` as `none`). -/
def poolGet : Pool → Str → Option Str
  | [], _ => none
  | (k, v) :: t, key => if k = key then some v else poolGet t key

/-- Write a pool file, overwriting by name. -/
def poolSet : Pool → Str → Str → Pool
  | [], key, v => [(key, v)]
  | (k, w) :: t, key, v => if k = key then (k, v) :: t else (k, w) :: poolSet t key v

/-- The recognized manifest fields (`MANIFEST_FIELDS`, build.py lines 30-37). -/
def manifestFields : List Str :=
  ["description".data, "license".data, "authors".data, "maintainers".data,
   "version".data, "dependencies".data]

/-- The warning loop of `get_manifest` (lines 88-90): one warning per
recognized field absent from the manifest; `key in manifest` raises
`TypeError` on non-container manifests. -/
def fieldWarnLogs (m : Json) : List Str → List Str × Except Exc Unit
  | [] => ([], .ok ())
  | k :: ks =>
    match pyContains m k with
    | .error e => ([], .error e)
    | .ok true => fieldWarnLogs m ks
    | .ok false =>
      let (ls, r) := fieldWarnLogs m ks
      (("[!] Package manifest is incomplete (missing '".data ++ k ++ "')".data) :: ls, r)

/-- `get_manifest` (lines 79-96): read and parse the manifest, warn per missing
field; a missing or unparseable manifest is a soft failure returning `none`. -/
def get_manifest (p : SourcePkg) : List Str × Except Exc (Option Json) :=
  let l0 : List Str := ["[i] Reading manifest".data]
  match p.manifest with
  | none => (l0 ++ ["[!] Package is invalid (no manifest)".data], .ok none)
  | some cs =>
    match loadsStr cs with
    | .error _ => (l0 ++ ["[!] Package is invalid (unreadable manifest)".data], .ok none)
    | .ok m =>
      let (wl, r) := fieldWarnLogs m manifestFields
      (l0 ++ wl, r.map (fun _ => some m))

/-- The file loop of `build_package` (lines 105-115): for each source file, log
it and store `{"content": ..., "digest": sha256(content.encode())}` into the
record's `files` dict. -/
def addFiles (ctx : Ctx) : Json → List (Str × Str) → List Str × Except Exc Json
  | m, [] => ([], .ok m)
  | m, (path, content) :: fs =>
    let lg : Str := "[+] ".data ++ path
    let entry : Json := .obj (.ocons "content".data (.str content)
      (.ocons "digest".data (.str (ctx.digest (utf8Encode content))) .onil))
    match (do
        let filesJ ← pyGetItem m "files".data
        let filesJ2 ← pySetItem filesJ path entry
        pySetItem m "files".data filesJ2 : Except Exc Json) with
    | .error e => ([lg], .error e)
    | .ok m2 =>
      let (ls, r) := addFiles ctx m2 fs
      (lg :: ls, r)

/-- `build_package` (lines 99-117): load the manifest, overwrite its `files`
key with a fresh dict, then add every source file. -/
def build_package (ctx : Ctx) (p : SourcePkg) : List Str × Except Exc (Option Json) :=
  let (l, r) := get_manifest p
  match r with
  | .error e => (l, .error e)
  | .ok none => (l, .ok none)
  | .ok (some m) =>
    match pySetItem m "files".data (Json.obj .onil) with
    | .error e => (l, .error e)
    | .ok m1 =>
      let (l2, r2) := addFiles ctx m1 p.files
      (l ++ l2, r2.map some)

/-- What `build_and_write_package` returns on success (lines 138-141). -/
structure BuiltPkg where
  manifest : Json
  digest : Str
deriving DecidableEq

/-- `build_and_write_package` (lines 126-141): build, encode, write
`{name}.{version}.ccp` into the pool, and return the record plus the digest of
the encoded bytes.  Evaluating `package['version']` for the file name raises
`KeyError` when the field is absent — before anything is written. -/
def build_and_write_package (ctx : Ctx) (p : SourcePkg) (pool : Pool) :
    List Str × Pool × Except Exc (Option BuiltPkg) :=
  let l0 : List Str := ["Packaging ".data ++ p.name]
  let (l, r) := build_package ctx p
  match r with
  | .error e => (l0 ++ l, pool, .error e)
  | .ok none => (l0 ++ l, pool, .ok none)
  | .ok (some pkg) =>
    let data := compress ctx pkg
    match pyGetItem pkg "version".data with
    | .error e => (l0 ++ l, pool, .error e)
    | .ok v =>
      let fname := p.name ++ '.' :: (pyToStr v ++ ".ccp".data)
      match utf8Decode data with
      | none => (l0 ++ l, pool, .error .unicodeDecode)
      | some s => (l0 ++ l, poolSet pool fname s, .ok (some ⟨pkg, ctx.digest data⟩))

/-! ## Index reconciliation -/

/-- The fresh index entry `{"description": "", "versions": {}, "latest_version": ""}`
(lines 178-182 and 217-221). -/
def freshEntry : Json :=
  .obj (.ocons "description".data (.str [])
    (.ocons "versions".data (.obj .onil)
      (.ocons "latest_version".data (.str []) .onil)))

/-- `if name not in packages: packages[name] = {...}` (lines 216-221 and
177-182): create the fresh entry when the name is absent. -/
def ensureEntry (packages : Json) (name : Str) (has : Bool) : Except Exc Json :=
  if has then pure packages else pySetItem packages name freshEntry

/-- The incremental upsert of `__main__` (lines 216-228), in Python's
evaluation order: ensure the entry exists, set `description` from the fresh
manifest (`KeyError` if absent), build the version value (`KeyError` if
`dependencies` absent), write it under `versions[version]`, then set
`latest_version` to the manifest's `version` value. -/
def upsertMain (packages : Json) (name : Str) (bp : BuiltPkg) : Except Exc Json := do
  let has ← pyContains packages name
  let packages1 ← ensureEntry packages name has
  let desc ← pyGetItem bp.manifest "description".data
  let e1 ← pyGetItem packages1 name
  let e1b ← pySetItem e1 "description".data desc
  let packages2 ← pySetItem packages1 name e1b
  let deps ← pyGetItem bp.manifest "dependencies".data
  let e2 ← pyGetItem packages2 name
  let vers ← pyGetItem e2 "versions".data
  let vkeyJ ← pyGetItem bp.manifest "version".data
  let vkey ← pyDictKey vkeyJ
  let ventry : Json := .obj (.ocons "digest".data (.str bp.digest)
    (.ocons "dependencies".data deps .onil))
  let vers2 ← pySetItem vers vkey ventry
  let e2b ← pySetItem e2 "versions".data vers2
  let packages3 ← pySetItem packages2 name e2b
  let lv ← pyGetItem bp.manifest "version".data
  let e3 ← pyGetItem packages3 name
  let e3b ← pySetItem e3 "latest_version".data lv
  pySetItem packages3 name e3b

/-- The repair upsert of `repair_package_index` (lines 177-189): same shape,
with the version string taken from the archive file name. -/
def upsertRepair (packages : Json) (name : Str) (manifest : Json) (version : Str)
    (digest : Str) : Except Exc Json := do
  let has ← pyContains packages name
  let packages1 ← ensureEntry packages name has
  let desc ← pyGetItem manifest "description".data
  let e1 ← pyGetItem packages1 name
  let e1b ← pySetItem e1 "description".data desc
  let packages2 ← pySetItem packages1 name e1b
  let deps ← pyGetItem manifest "dependencies".data
  let e2 ← pyGetItem packages2 name
  let vers ← pyGetItem e2 "versions".data
  let ventry : Json := .obj (.ocons "digest".data (.str digest)
    (.ocons "dependencies".data deps .onil))
  let vers2 ← pySetItem vers version ventry
  let e2b ← pySetItem e2 "versions".data vers2
  let packages3 ← pySetItem packages2 name e2b
  let e3 ← pyGetItem packages3 name
  let e3b ← pySetItem e3 "latest_version".data (.str version)
  pySetItem packages3 name e3b

/-- The per-package loop of build mode (lines 212-228), threading the index
value, the pool, and the printed lines; a raised exception stops the loop but
keeps the pool state already written. -/
def buildLoop (ctx : Ctx) : List SourcePkg → Json → Pool →
    List Str × Pool × Except Exc Json
  | [], packages, pool => ([], pool, .ok packages)
  | p :: ps, packages, pool =>
    let (l, pool1, r) := build_and_write_package ctx p pool
    match r with
    | .error e => (l, pool1, .error e)
    | .ok none =>
      let (l2, pool2, r2) := buildLoop ctx ps packages pool1
      (l ++ l2, pool2, r2)
    | .ok (some bp) =>
      match upsertMain packages p.name bp with
      | .error e => (l, pool1, .error e)
      | .ok packages2 =>
        let (l2, pool2, r2) := buildLoop ctx ps packages2 pool1
        (l ++ l2, pool2, r2)

/-- The outcome of one invocation: exit code, final pool directory, printed
lines, the index value written (`none` when the run aborted before writing),
and the exception that aborted it, if any. -/
structure RunResult where
  exit : Nat
  pool : Pool
  logs : List Str
  indexJson : Option Json
  err : Option Exc
deriving DecidableEq

/-- Rendering of `print(f"Error: {e}")` (line 230). -/
def excMsg : Exc → Str
  | .keyError k => "Error: '".data ++ k ++ "'".data
  | .typeError => "Error: TypeError".data
  | .valueError => "Error: ValueError".data
  | .jsonDecode => "Error: JSONDecodeError".data
  | .unicodeDecode => "Error: UnicodeDecodeError".data

/-- The operator hint printed on any top-level failure (line 231). -/
def hintLine : Str :=
  "You can try to repair the package index using the --repair option.".data

/-- Build mode of `__main__` (lines 204-236): load the prior index from
`pool/index.json` if present (an unparseable one raises inside the `try`),
run the per-package loop, and on success write the index; any exception
prints the error and the repair hint and exits with code 1, leaving
`index.json` unwritten. -/
def buildRun (ctx : Ctx) (pkgs : List SourcePkg) (pool : Pool) : RunResult :=
  let priorLoad : Except Exc Json :=
    match poolGet pool "index.json".data with
    | none => .ok (Json.obj .onil)
    | some cs =>
      match loadsStr cs with
      | .error _ => .error .jsonDecode
      | .ok j => .ok j
  match priorLoad with
  | .error e => ⟨1, pool, [excMsg e, hintLine], none, some e⟩
  | .ok packages0 =>
    let (l, pool2, r) := buildLoop ctx pkgs packages0 pool
    match r with
    | .error e => ⟨1, pool2, l ++ [excMsg e, hintLine], none, some e⟩
    | .ok pk =>
      ⟨0, poolSet pool2 "index.json".data (dumps pk), l ++ ["Writing index".data], some pk, none⟩

/-! ## Repair mode -/

/-- `entry.name[:-4].split(".", maxsplit=1)` (line 58): drop the last four
characters, split at the first dot; unpacking a dotless result raises
`ValueError`. -/
def parsePoolName (fname : Str) : Except Exc (Str × Str) :=
  let base := fname.take (fname.length - 4)
  let before := base.takeWhile (fun c => c ≠ '.')
  match base.dropWhile (fun c => c ≠ '.') with
  | '.' :: after => .ok (before, after)
  | _ => .error .valueError

/-- Append a version to a name's group, preserving first-seen dict order
(lines 60-63). -/
def groupAdd : List (Str × List Str) → Str → Str → List (Str × List Str)
  | [], n, v => [(n, [v])]
  | (m, vs) :: t, n, v =>
    if m = n then (m, vs ++ [v]) :: t else (m, vs) :: groupAdd t n v

/-- The scandir fold of `get_built_packages` (lines 50-65) over pool entries
other than `index.json`. -/
def groupEntries : List (Str × Str) → List (Str × List Str) →
    Except Exc (List (Str × List Str))
  | [], acc => .ok acc
  | (f, _) :: t, acc =>
    match parsePoolName f with
    | .error e => .error e
    | .ok (n, v) => groupEntries t (groupAdd acc n v)

/-- `get_built_packages` (lines 50-65): name → versions present on disk. -/
def get_built_packages (pool : Pool) : Except Exc (List (Str × List Str)) :=
  groupEntries (pool.filter (fun e => e.1 ≠ "index.json".data)) []

/-- `read_package` (lines 144-162): read `{name}.{version}.ccp`, decode it, and
digest the re-read text.  A missing file, bad padding, a zlib error or a JSON
parse error are soft failures (logged, `none`); a non-ASCII file
(`ValueError`) or invalid UTF-8 in the decompressed payload
(`UnicodeDecodeError`) are not caught and propagate. -/
def read_package (ctx : Ctx) (pool : Pool) (name version : Str) :
    List Str × Except Exc (Option BuiltPkg) :=
  match poolGet pool (name ++ '.' :: (version ++ ".ccp".data)) with
  | none => (["[!] Version ".data ++ version ++ " not found".data], .ok none)
  | some data =>
    match decodeArchive ctx data with
    | .ok m => ([], .ok (some ⟨m, ctx.digest (utf8Encode data)⟩))
    | .error .padErr =>
        (["[!] Version ".data ++ version ++ " is invalid (corrupted)".data], .ok none)
    | .error .zlibErr =>
        (["[!] Version ".data ++ version ++ " is invalid (corrupted)".data], .ok none)
    | .error .parseErr =>
        (["[!] Version ".data ++ version ++ " is invalid (no manifest)".data], .ok none)
    | .error .asciiErr => ([], .error .valueError)
    | .error .utf8Err => ([], .error .unicodeDecode)

/-- The inner loop of `repair_package_index` (lines 171-189) over the versions
of one package. -/
def repairVersions (ctx : Ctx) (pool : Pool) (name : Str) :
    List Str → Json → List Str × Except Exc Json
  | [], packages => ([], .ok packages)
  | v :: vs, packages =>
    let (l, r) := read_package ctx pool name v
    match r with
    | .error e => (l, .error e)
    | .ok none =>
      let (l2, r2) := repairVersions ctx pool name vs packages
      (l ++ l2, r2)
    | .ok (some bp) =>
      match upsertRepair packages name bp.manifest v bp.digest with
      | .error e => (l ++ ["[+] Version ".data ++ v], .error e)
      | .ok packages2 =>
        let (l2, r2) := repairVersions ctx pool name vs packages2
        (l ++ ("[+] Version ".data ++ v) :: l2, r2)

/-- The outer loop of `repair_package_index` (lines 165-191). -/
def repairLoop (ctx : Ctx) (pool : Pool) :
    List (Str × List Str) → Json → List Str × Except Exc Json
  | [], packages => ([], .ok packages)
  | (n, vs) :: gs, packages =>
    let (l, r) := repairVersions ctx pool n vs packages
    match r with
    | .error e => (("Indexing ".data ++ n) :: l, .error e)
    | .ok packages2 =>
      let (l2, r2) := repairLoop ctx pool gs packages2
      (("Indexing ".data ++ n) :: l ++ l2, r2)

/-- Repair mode of `__main__` (lines 204-236 with `--repair`): re-derive the
index from the pool alone and write it; any exception prints the error and
the hint and exits 1 without writing. -/
def repairRun (ctx : Ctx) (pool : Pool) : RunResult :=
  match get_built_packages pool with
  | .error e => ⟨1, pool, [excMsg e, hintLine], none, some e⟩
  | .ok groups =>
    let (l, r) := repairLoop ctx pool groups (Json.obj .onil)
    match r with
    | .error e => ⟨1, pool, l ++ [excMsg e, hintLine], none, some e⟩
    | .ok pk =>
      ⟨0, poolSet pool "index.json".data (dumps pk), l ++ ["Writing index".data], some pk, none⟩

/-! ## Object-level helper lemmas -/

theorem JsonObj.lookup_set_self : ∀ (o : JsonObj) (k : Str) (v : Json),
    (o.set k v).lookup k = some v
  | .onil, k, v => by
    simp [JsonObj.set, JsonObj.lookup]
  | .ocons k2 w t, k, v => by
    rw [JsonObj.set]
    by_cases h : k2 = k
    · rw [if_pos h]
      simp only [JsonObj.lookup]
      rw [if_pos h]
    · rw [if_neg h]
      simp only [JsonObj.lookup]
      rw [if_neg h]
      exact JsonObj.lookup_set_self t k v

theorem JsonObj.lookup_set_ne : ∀ (o : JsonObj) (k : Str) (v : Json) (n : Str), n ≠ k →
    (o.set k v).lookup n = o.lookup n
  | .onil, k, v, n => by
    intro h
    simp only [JsonObj.set, JsonObj.lookup]
    rw [if_neg (fun he => h he.symm)]
  | .ocons k2 w t, k, v, n => by
    intro h
    rw [JsonObj.set]
    by_cases h2 : k2 = k
    · rw [if_pos h2]
      simp only [JsonObj.lookup]
      subst h2
      rw [if_neg (fun he => h he.symm), if_neg (fun he => h he.symm)]
    · rw [if_neg h2]
      simp only [JsonObj.lookup]
      by_cases h3 : k2 = n
      · rw [if_pos h3, if_pos h3]
      · rw [if_neg h3, if_neg h3]
        exact JsonObj.lookup_set_ne t k v n h

theorem exceptBind_ok {α β ε : Type} (x : Except ε α) (f : α → Except ε β) (b : β) :
    (x >>= f) = .ok b ↔ ∃ a, x = .ok a ∧ f a = .ok b := by
  cases x <;> simp [Bind.bind, Except.bind]

/-! ## Claim C1: codec round trip -/

/-- All bytes of a UTF-8 encoding are below 256. -/
theorem utf8Encode_lt_256 (s : Str) : ∀ x ∈ utf8Encode s, x < 256 := by
  induction s with
  | nil => simp [utf8Encode_nil]
  | cons c t ih =>
    intro x hx
    rw [utf8Encode_cons] at hx
    rcases List.mem_append.mp hx with h | h
    · exact utf8EncodeChar_lt_256 c x h
    · exact ih x h

/-- A well-formed PackageRecord: a JSON object, as `json.load` plus the
`files` attachment produce. -/
def WellFormedRecord (r : Json) : Prop := ∃ o, r = Json.obj o

/-- Claim C1: decoding the archive bytes produced by encoding a well-formed
PackageRecord (JSON-serialize, zlib-compress, base64-encode) by the inverse
steps (base64-decode, decompress, JSON-parse) yields the record itself — under
the zlib library contract that `decompress` inverts `compress` and keeps
bytes in range. -/
theorem c1_codec_roundtrip (ctx : Ctx)
    (hinf : ∀ bs, ctx.inflate (ctx.deflate bs) = .ok bs)
    (hbyte : ∀ bs, (∀ x ∈ bs, x < 256) → ∀ x ∈ ctx.deflate bs, x < 256)
    (r : Json) (hr : WellFormedRecord r) :
    utf8Decode (compress ctx r) = some (asciiStr (compress ctx r)) ∧
    decodeArchive ctx (asciiStr (compress ctx r)) = .ok r := by
  obtain ⟨o, rfl⟩ := hr
  have hD256 : ∀ x ∈ ctx.deflate (utf8Encode (dumps (Json.obj o))), x < 256 :=
    hbyte (utf8Encode (dumps (Json.obj o))) (utf8Encode_lt_256 _)
  have hchars := b64encodeChars_facts (ctx.deflate (utf8Encode (dumps (Json.obj o)))) hD256
  have hnat : ∀ x ∈ compress ctx (Json.obj o), x < 128 := by
    intro x hx
    rw [compress] at hx
    obtain ⟨c, hc, rfl⟩ := List.mem_map.mp hx
    exact (hchars.1 c hc).2
  have hdecu : utf8Decode (compress ctx (Json.obj o)) =
      some (asciiStr (compress ctx (Json.obj o))) := utf8Decode_ascii _ hnat
  refine ⟨hdecu, ?_⟩
  have hascii : asciiStr (compress ctx (Json.obj o)) =
      b64encodeChars (ctx.deflate (utf8Encode (dumps (Json.obj o)))) := by
    rw [compress, asciiStr_map_toNat]
  rw [hascii, decodeArchive]
  have hall : ((b64encodeChars (ctx.deflate (utf8Encode (dumps (Json.obj o))))).all
      fun c => decide (c.toNat < 128)) = true := by
    rw [List.all_eq_true]
    intro c hc
    simpa using (hchars.1 c hc).2
  rw [if_pos hall]
  rw [b64decodeFiltered_encode _ hD256]
  simp [hinf, utf8Decode_encode, loads_dumps]

/-- A concrete codec context: identity compression, constant digest. -/
def ctxId : Ctx := ⟨fun _ => "d".data, id, fun bs => .ok bs⟩

/-- A concrete well-formed PackageRecord. -/
def recX : Json :=
  .obj (.ocons "description".data (.str "d".data)
    (.ocons "version".data (.str "1.0".data)
      (.ocons "dependencies".data (.arr .anil)
        (.ocons "files".data (.obj (.ocons "a.txt".data
          (.obj (.ocons "content".data (.str "hello".data)
            (.ocons "digest".data (.str "d".data) .onil))) .onil)) .onil))))

theorem c1_codec_roundtrip_witness :
    utf8Decode (compress ctxId recX) = some (asciiStr (compress ctxId recX)) ∧
    decodeArchive ctxId (asciiStr (compress ctxId recX)) = .ok recX :=
  c1_codec_roundtrip ctxId (fun _ => rfl) (fun _ h x hx => h x hx) recX ⟨_, rfl⟩

/-! ## Claim C6: build-time and repair-time archive digests -/

theorem b64Table_ascii (i : Nat) : (b64Table i).toNat < 128 := by
  by_cases h : i < 64
  · exact (b64Table_facts i h).2.2.1
  · rw [b64Table, List.getD_eq_default]
    · decide
    · simp only [b64Alphabet]
      rw [show ("ABCDEFGHIJKLMNOPQRSTUVWXYZabcdefghijklmnopqrstuvwxyz0123456789+/".data).length
        = 64 from by decide]
      omega

theorem b64encodeChars_ascii : ∀ bs : List Nat, ∀ c ∈ b64encodeChars bs, c.toNat < 128
  | [] => by simp [b64encodeChars]
  | [x] => by
    intro c hc
    simp only [b64encodeChars, List.mem_cons, List.not_mem_nil, or_false] at hc
    rcases hc with rfl | rfl | rfl | rfl
    · exact b64Table_ascii _
    · exact b64Table_ascii _
    · decide
    · decide
  | [x, y] => by
    intro c hc
    simp only [b64encodeChars, List.mem_cons, List.not_mem_nil, or_false] at hc
    rcases hc with rfl | rfl | rfl | rfl
    · exact b64Table_ascii _
    · exact b64Table_ascii _
    · exact b64Table_ascii _
    · decide
  | x :: y :: z :: rest => by
    intro c hc
    simp only [b64encodeChars, List.mem_cons] at hc
    rcases hc with rfl | rfl | rfl | rfl | hc
    · exact b64Table_ascii _
    · exact b64Table_ascii _
    · exact b64Table_ascii _
    · exact b64Table_ascii _
    · exact b64encodeChars_ascii rest c hc

/-- Claim C6: the digest recorded by build mode is computed over
`compress(package)` (the encoded bytes before writing); repair mode hashes the
re-read textual content encoded back to bytes.  The decoded text re-encodes to
exactly the original byte sequence, so both code paths hash identical byte
sequences and the digests agree for every digest function. -/
theorem c6_digest_byte_agreement (ctx : Ctx) (pkg : Json) :
    utf8Decode (compress ctx pkg) = some (asciiStr (compress ctx pkg)) ∧
    utf8Encode (asciiStr (compress ctx pkg)) = compress ctx pkg ∧
    ctx.digest (utf8Encode (asciiStr (compress ctx pkg))) = ctx.digest (compress ctx pkg) := by
  have hnat : ∀ x ∈ compress ctx pkg, x < 128 := by
    intro x hx
    rw [compress] at hx
    obtain ⟨c, hc, rfl⟩ := List.mem_map.mp hx
    exact b64encodeChars_ascii _ c hc
  have h1 : utf8Decode (compress ctx pkg) = some (asciiStr (compress ctx pkg)) :=
    utf8Decode_ascii _ hnat
  have h2 : utf8Encode (asciiStr (compress ctx pkg)) = compress ctx pkg := by
    apply utf8Encode_asciiStr
    exact hnat
  exact ⟨h1, h2, by rw [h2]⟩

/-! ## Upsert postconditions -/

theorem upsertMain_spec (packages : Json) (name : Str) (bp : BuiltPkg) (P : Json)
    (h : upsertMain packages name bp = .ok P) :
    (∀ n, n ≠ name → jLookup P n = jLookup packages n) ∧
    (∃ e lv, jLookup P name = some e ∧ jLookup e "latest_version".data = some lv ∧
      pyGetItem bp.manifest "version".data = .ok lv) := by
  simp only [upsertMain, exceptBind_ok] at h
  obtain ⟨has, hhas, packages1, hp1, desc, hdesc, e1, he1, e1b, he1b, packages2, hp2,
    deps, hdeps, e2, he2, vers, hvers, vkeyJ, hvkeyJ, vkey, hvkey, vers2, hvers2,
    e2b, he2b, packages3, hp3, lv, hlv, e3, he3, e3b, he3b, hfin⟩ := h
  cases packages3 with
  | obj o3 =>
    cases e3 with
    | obj eo3 =>
      have hP : P = .obj (o3.set name e3b) := by
        simpa [pySetItem] using hfin.symm
      have he3bv : e3b = .obj (eo3.set "latest_version".data lv) := by
        simpa [pySetItem] using he3b.symm
      have hframe3 : ∀ n, n ≠ name → jLookup P n = jLookup (Json.obj o3) n := by
        intro n hn
        rw [hP]
        exact JsonObj.lookup_set_ne o3 name e3b n hn
      cases packages2 with
      | obj o2 =>
        have hp3v : Json.obj o3 = .obj (o2.set name e2b) := by
          simpa [pySetItem] using hp3.symm
        cases packages1 with
        | obj o1 =>
          have hp2v : Json.obj o2 = .obj (o1.set name e1b) := by
            simpa [pySetItem] using hp2.symm
          have hframe1 : ∀ n, n ≠ name → jLookup (Json.obj o1) n = jLookup packages n := by
            intro n hn
            cases has with
            | true =>
              have hsame : packages = Json.obj o1 := by
                have := hp1
                simp only [ensureEntry, if_pos rfl] at this
                simp only [pure, Except.pure] at this
                exact Except.ok.inj this
              rw [hsame]
            | false =>
              cases packages with
              | obj o0 =>
                have hset : Json.obj o1 = .obj (o0.set name freshEntry) := by
                  simpa [ensureEntry, pySetItem] using hp1.symm
                rw [hset]
                exact JsonObj.lookup_set_ne o0 name freshEntry n hn
              | null => simp [ensureEntry, pySetItem] at hp1
              | bool b => simp [ensureEntry, pySetItem] at hp1
              | num i => simp [ensureEntry, pySetItem] at hp1
              | str s => simp [ensureEntry, pySetItem] at hp1
              | arr a => simp [ensureEntry, pySetItem] at hp1
          constructor
          · intro n hn
            rw [hframe3 n hn]
            have h3 : jLookup (Json.obj o3) n = jLookup (Json.obj o2) n := by
              rw [hp3v]
              exact JsonObj.lookup_set_ne o2 name e2b n hn
            have h2 : jLookup (Json.obj o2) n = jLookup (Json.obj o1) n := by
              rw [hp2v]
              exact JsonObj.lookup_set_ne o1 name e1b n hn
            rw [h3, h2, hframe1 n hn]
          · refine ⟨e3b, lv, ?_, ?_, hlv⟩
            · rw [hP]
              show (JsonObj.set o3 name e3b).lookup name = some e3b
              exact JsonObj.lookup_set_self o3 name e3b
            · rw [he3bv]
              show (eo3.set "latest_version".data lv).lookup "latest_version".data = some lv
              exact JsonObj.lookup_set_self eo3 _ lv
        | null => simp [pySetItem] at hp2
        | bool b => simp [pySetItem] at hp2
        | num i => simp [pySetItem] at hp2
        | str s => simp [pySetItem] at hp2
        | arr a => simp [pySetItem] at hp2
      | null => simp [pySetItem] at hp3
      | bool b => simp [pySetItem] at hp3
      | num i => simp [pySetItem] at hp3
      | str s => simp [pySetItem] at hp3
      | arr a => simp [pySetItem] at hp3
    | null => simp [pySetItem] at he3b
    | bool b => simp [pySetItem] at he3b
    | num i => simp [pySetItem] at he3b
    | str s => simp [pySetItem] at he3b
    | arr a => simp [pySetItem] at he3b
  | null => simp [pySetItem] at hfin
  | bool b => simp [pySetItem] at hfin
  | num i => simp [pySetItem] at hfin
  | str s => simp [pySetItem] at hfin
  | arr a => simp [pySetItem] at hfin

theorem upsertRepair_spec (packages : Json) (name : Str) (manifest : Json) (version : Str)
    (digest : Str) (P : Json)
    (h : upsertRepair packages name manifest version digest = .ok P) :
    (∀ n, n ≠ name → jLookup P n = jLookup packages n) ∧
    (∃ e, jLookup P name = some e ∧
      jLookup e "latest_version".data = some (.str version)) := by
  simp only [upsertRepair, exceptBind_ok] at h
  obtain ⟨has, hhas, packages1, hp1, desc, hdesc, e1, he1, e1b, he1b, packages2, hp2,
    deps, hdeps, e2, he2, vers, hvers, vers2, hvers2,
    e2b, he2b, packages3, hp3, e3, he3, e3b, he3b, hfin⟩ := h
  cases packages3 with
  | obj o3 =>
    cases e3 with
    | obj eo3 =>
      have hP : P = .obj (o3.set name e3b) := by
        simpa [pySetItem] using hfin.symm
      have he3bv : e3b = .obj (eo3.set "latest_version".data (.str version)) := by
        simpa [pySetItem] using he3b.symm
      have hframe3 : ∀ n, n ≠ name → jLookup P n = jLookup (Json.obj o3) n := by
        intro n hn
        rw [hP]
        exact JsonObj.lookup_set_ne o3 name e3b n hn
      cases packages2 with
      | obj o2 =>
        have hp3v : Json.obj o3 = .obj (o2.set name e2b) := by
          simpa [pySetItem] using hp3.symm
        cases packages1 with
        | obj o1 =>
          have hp2v : Json.obj o2 = .obj (o1.set name e1b) := by
            simpa [pySetItem] using hp2.symm
          have hframe1 : ∀ n, n ≠ name → jLookup (Json.obj o1) n = jLookup packages n := by
            intro n hn
            cases has with
            | true =>
              have hsame : packages = Json.obj o1 := by
                have := hp1
                simp only [ensureEntry, if_pos rfl] at this
                simp only [pure, Except.pure] at this
                exact Except.ok.inj this
              rw [hsame]
            | false =>
              cases packages with
              | obj o0 =>
                have hset : Json.obj o1 = .obj (o0.set name freshEntry) := by
                  simpa [ensureEntry, pySetItem] using hp1.symm
                rw [hset]
                exact JsonObj.lookup_set_ne o0 name freshEntry n hn
              | null => simp [ensureEntry, pySetItem] at hp1
              | bool b => simp [ensureEntry, pySetItem] at hp1
              | num i => simp [ensureEntry, pySetItem] at hp1
              | str s => simp [ensureEntry, pySetItem] at hp1
              | arr a => simp [ensureEntry, pySetItem] at hp1
          constructor
          · intro n hn
            rw [hframe3 n hn]
            have h3 : jLookup (Json.obj o3) n = jLookup (Json.obj o2) n := by
              rw [hp3v]
              exact JsonObj.lookup_set_ne o2 name e2b n hn
            have h2 : jLookup (Json.obj o2) n = jLookup (Json.obj o1) n := by
              rw [hp2v]
              exact JsonObj.lookup_set_ne o1 name e1b n hn
            rw [h3, h2, hframe1 n hn]
          · refine ⟨e3b, ?_, ?_⟩
            · rw [hP]
              show (JsonObj.set o3 name e3b).lookup name = some e3b
              exact JsonObj.lookup_set_self o3 name e3b
            · rw [he3bv]
              show (eo3.set "latest_version".data (.str version)).lookup
                "latest_version".data = some (.str version)
              exact JsonObj.lookup_set_self eo3 _ _
        | null => simp [pySetItem] at hp2
        | bool b => simp [pySetItem] at hp2
        | num i => simp [pySetItem] at hp2
        | str s => simp [pySetItem] at hp2
        | arr a => simp [pySetItem] at hp2
      | null => simp [pySetItem] at hp3
      | bool b => simp [pySetItem] at hp3
      | num i => simp [pySetItem] at hp3
      | str s => simp [pySetItem] at hp3
      | arr a => simp [pySetItem] at hp3
    | null => simp [pySetItem] at he3b
    | bool b => simp [pySetItem] at he3b
    | num i => simp [pySetItem] at he3b
    | str s => simp [pySetItem] at he3b
    | arr a => simp [pySetItem] at he3b
  | null => simp [pySetItem] at hfin
  | bool b => simp [pySetItem] at hfin
  | num i => simp [pySetItem] at hfin
  | str s => simp [pySetItem] at hfin
  | arr a => simp [pySetItem] at hfin

/-! ## Claim C9: latest_version is last-write-wins -/

/-- Claim C9: after every index upsert performed by either reconciliation
strategy — the incremental one of build mode and the repair one — the
package's `latest_version` field equals exactly the version processed by that
upsert (the repair upsert stores the version string from the file name, the
incremental one the manifest's `version` value): last write wins, no
semantic-version comparison is involved. -/
theorem c9_latest_version_last_write
    (packages : Json) (name : Str) (manifest : Json) (version : Str) (digest : Str)
    (P : Json) (hrep : upsertRepair packages name manifest version digest = .ok P)
    (packages2 : Json) (name2 : Str) (bp : BuiltPkg) (Q : Json) (vj : Json)
    (hver : pyGetItem bp.manifest "version".data = .ok vj)
    (hmain : upsertMain packages2 name2 bp = .ok Q) :
    (∃ e, jLookup P name = some e ∧
      jLookup e "latest_version".data = some (.str version)) ∧
    (∃ e, jLookup Q name2 = some e ∧ jLookup e "latest_version".data = some vj) := by
  refine ⟨(upsertRepair_spec _ _ _ _ _ _ hrep).2, ?_⟩
  obtain ⟨-, e, lv, h1, h2, h3⟩ := upsertMain_spec _ _ _ _ hmain
  have hlv : lv = vj := Except.ok.inj (h3.symm.trans hver)
  exact ⟨e, h1, hlv ▸ h2⟩

/-- A concrete manifest with description, dependencies and version. -/
def mC9 : Json := .obj (.ocons "description".data (.str "d".data)
  (.ocons "dependencies".data (.arr .anil)
    (.ocons "version".data (.str "2".data) .onil)))

/-- The repair upsert of `mC9` at version `1` into an empty index. -/
def pC9 : Json :=
  match upsertRepair (.obj .onil) "a".data mC9 "1".data "dg".data with
  | .ok p => p
  | .error _ => .null

/-- The incremental upsert of `mC9` into an empty index. -/
def qC9 : Json :=
  match upsertMain (.obj .onil) "b".data ⟨mC9, "dg".data⟩ with
  | .ok p => p
  | .error _ => .null

theorem c9_latest_version_last_write_witness :
    (∃ e, jLookup pC9 "a".data = some e ∧
      jLookup e "latest_version".data = some (.str "1".data)) ∧
    (∃ e, jLookup qC9 "b".data = some e ∧
      jLookup e "latest_version".data = some (.str "2".data)) :=
  c9_latest_version_last_write (.obj .onil) "a".data mC9 "1".data "dg".data pC9 (by rfl)
    (.obj .onil) "b".data ⟨mC9, "dg".data⟩ qC9 (.str "2".data) (by rfl) (by rfl)

/-! ## Claim C5: incremental preservation -/

theorem bwp_of_build_none (ctx : Ctx) (p : SourcePkg) (pool : Pool)
    (h : (build_package ctx p).2 = .ok none) :
    ∃ l, build_and_write_package ctx p pool = (l, pool, .ok none) := by
  rcases hbp : build_package ctx p with ⟨l, r⟩
  rw [hbp] at h
  simp only at h
  rw [build_and_write_package, hbp]
  subst h
  exact ⟨_, rfl⟩

theorem buildLoop_frame (ctx : Ctx) : ∀ (pkgs : List SourcePkg) (packages : Json) (pool : Pool)
    (n : Str), (∀ p ∈ pkgs, p.name ≠ n ∨ (build_package ctx p).2 = .ok none) →
    ∀ pk, (buildLoop ctx pkgs packages pool).2.2 = .ok pk →
      jLookup pk n = jLookup packages n
  | [], packages, pool, n => by
    intro h pk hpk
    simp only [buildLoop] at hpk
    rw [← Except.ok.inj hpk]
  | p :: ps, packages, pool, n => by
    intro h pk hpk
    rcases hbw : build_and_write_package ctx p pool with ⟨l, pool1, r⟩
    rw [buildLoop, hbw] at hpk
    cases r with
    | error e => simp only at hpk; exact absurd hpk (by simp)
    | ok ob =>
      cases ob with
      | none =>
        rcases hrec : buildLoop ctx ps packages pool1 with ⟨l2, pool2, r2⟩
        simp only [hrec] at hpk
        exact buildLoop_frame ctx ps packages pool1 n
          (fun q hq => h q (by simp [hq])) pk (by rw [hrec]; exact hpk)
      | some bp =>
        have hne : p.name ≠ n := by
          rcases h p (by simp) with hne | hnone
          · exact hne
          · obtain ⟨l3, heq⟩ := bwp_of_build_none ctx p pool hnone
            rw [heq] at hbw
            cases hbw
        cases hup : upsertMain packages p.name bp with
        | error e => simp only [hup] at hpk; exact absurd hpk (by simp)
        | ok packages2 =>
          rcases hrec : buildLoop ctx ps packages2 pool1 with ⟨l2, pool2, r2⟩
          simp only [hup, hrec] at hpk
          have hstep := (upsertMain_spec packages p.name bp packages2 hup).1 n
            (fun he => hne he.symm)
          have hfr := buildLoop_frame ctx ps packages2 pool1 n
            (fun q hq => h q (by simp [hq])) pk (by rw [hrec]; exact hpk)
          rw [hfr, hstep]

/-- Claim C5: in a build-mode run that completes, every package name that is
not successfully rebuilt in that run (it is absent from the source tree, or
its build was skipped) keeps its prior index entry unchanged; only the
packages successfully built are inserted or modified. -/
theorem c5_incremental_preservation (ctx : Ctx) (pkgs : List SourcePkg) (pool : Pool)
    (cs : Str) (J : Json)
    (hprior : poolGet pool "index.json".data = some cs)
    (hJ : loadsStr cs = .ok J)
    (n : Str) (hn : ∀ p ∈ pkgs, p.name ≠ n ∨ (build_package ctx p).2 = .ok none)
    (hexit : (buildRun ctx pkgs pool).exit = 0) :
    ∃ P, (buildRun ctx pkgs pool).indexJson = some P ∧ jLookup P n = jLookup J n := by
  rw [buildRun, hprior] at hexit ⊢
  simp only [hJ] at hexit ⊢
  rcases hloop2 : (buildLoop ctx pkgs J pool).2.2 with e | pk
  · rw [hloop2] at hexit
    exact absurd hexit Nat.one_ne_zero
  · refine ⟨pk, rfl, ?_⟩
    exact buildLoop_frame ctx pkgs J pool n hn pk hloop2

/-- A complete, valid source package used by several witnesses. -/
def pkgB : SourcePkg := ⟨"b".data,
  some "\x7b\"description\": \"d\", \"version\": \"1.0\", \"dependencies\": []\x7d".data,
  [("a.txt".data, "hello".data)]⟩

/-- A pool holding a prior index with an entry for package `A`. -/
def poolC5 : Pool := [("index.json".data, "\x7b\"A\": \x7b\"y\": 1\x7d\x7d".data)]

/-- The parsed prior index of `poolC5`. -/
def jC5 : Json :=
  match loadsStr "\x7b\"A\": \x7b\"y\": 1\x7d\x7d".data with
  | .ok j => j
  | .error _ => .null

theorem c5_incremental_preservation_witness :
    ∃ P, (buildRun ctxId [pkgB] poolC5).indexJson = some P ∧
      jLookup P "A".data = jLookup jC5 "A".data :=
  c5_incremental_preservation ctxId [pkgB] poolC5
    "\x7b\"A\": \x7b\"y\": 1\x7d\x7d".data jC5 (by rfl) (by rfl) "A".data
    (by
      intro p hp
      simp only [List.mem_singleton] at hp
      subst hp
      left
      decide)
    (by rfl)

/-! ## Claim C7: unexpected errors abort without writing the index -/

theorem ccpName_ne_index (nm s : Str) :
    nm ++ '.' :: (s ++ ".ccp".data) ≠ "index.json".data := by
  intro h
  have h2 : ((nm ++ '.' :: s) ++ ".ccp".data) = "index.json".data := by
    rw [← h, List.append_assoc, List.cons_append]
  have h3 := congrArg List.getLast? h2
  rw [List.getLast?_append] at h3
  have h4 : (some 'p' : Option Char) = some 'n' := h3
  exact absurd h4 (by decide)

theorem poolGet_poolSet_ne : ∀ (pool : Pool) (k : Str) (v : Str) (k2 : Str), k2 ≠ k →
    poolGet (poolSet pool k v) k2 = poolGet pool k2
  | [], k, v, k2 => by
    intro h
    simp only [poolSet, poolGet]
    rw [if_neg (fun he => h he.symm)]
  | (k0, w) :: t, k, v, k2 => by
    intro h
    rw [poolSet]
    by_cases h0 : k0 = k
    · rw [if_pos h0]
      simp only [poolGet]
      subst h0
      rw [if_neg (fun he => h he.symm), if_neg (fun he => h he.symm)]
    · rw [if_neg h0]
      simp only [poolGet]
      by_cases h1 : k0 = k2
      · rw [if_pos h1, if_pos h1]
      · rw [if_neg h1, if_neg h1]
        exact poolGet_poolSet_ne t k v k2 h

theorem bwp_pool (ctx : Ctx) (p : SourcePkg) (pool : Pool) :
    (build_and_write_package ctx p pool).2.1 = pool ∨
    ∃ v s, (build_and_write_package ctx p pool).2.1 =
      poolSet pool (p.name ++ '.' :: (pyToStr v ++ ".ccp".data)) s := by
  rw [build_and_write_package]
  rcases hbp : build_package ctx p with ⟨l, r⟩
  cases r with
  | error e => left; rfl
  | ok ob =>
    cases ob with
    | none => left; rfl
    | some pkg =>
      cases hv : pyGetItem pkg "version".data with
      | error e =>
        left
        simp [hv]
      | ok v =>
        cases hu : utf8Decode (compress ctx pkg) with
        | none =>
          left
          simp [hv, hu]
        | some s =>
          right
          refine ⟨v, s, ?_⟩
          simp [hv, hu]

theorem buildLoop_pool_index (ctx : Ctx) : ∀ (pkgs : List SourcePkg) (packages : Json)
    (pool : Pool),
    poolGet (buildLoop ctx pkgs packages pool).2.1 "index.json".data =
      poolGet pool "index.json".data
  | [], packages, pool => rfl
  | p :: ps, packages, pool => by
    rcases hbw : build_and_write_package ctx p pool with ⟨l, pool1, r⟩
    have hpool1 : poolGet pool1 "index.json".data = poolGet pool "index.json".data := by
      rcases bwp_pool ctx p pool with h | ⟨v, s, h⟩
      · have h2 : pool1 = pool := by rw [hbw] at h; exact h
        rw [h2]
      · have h2 : pool1 = poolSet pool (p.name ++ '.' :: (pyToStr v ++ ".ccp".data)) s := by
          rw [hbw] at h
          exact h
        rw [h2]
        exact poolGet_poolSet_ne pool _ s _ (fun he => ccpName_ne_index p.name _ he.symm)
    rw [buildLoop, hbw]
    cases r with
    | error e => exact hpool1
    | ok ob =>
      cases ob with
      | none =>
        rcases hrec : buildLoop ctx ps packages pool1 with ⟨l2, pool2, r2⟩
        have hrec2 : poolGet pool2 "index.json".data =
            poolGet pool1 "index.json".data := by
          have hh := buildLoop_pool_index ctx ps packages pool1
          rw [hrec] at hh
          exact hh
        simp only [hrec]
        show poolGet pool2 "index.json".data = poolGet pool "index.json".data
        rw [hrec2, hpool1]
      | some bp =>
        cases hup : upsertMain packages p.name bp with
        | error e =>
          simp only [hup]
          exact hpool1
        | ok packages2 =>
          rcases hrec : buildLoop ctx ps packages2 pool1 with ⟨l2, pool2, r2⟩
          have hrec2 : poolGet pool2 "index.json".data =
              poolGet pool1 "index.json".data := by
            have hh := buildLoop_pool_index ctx ps packages2 pool1
            rw [hrec] at hh
            exact hh
          simp only [hup, hrec]
          show poolGet pool2 "index.json".data = poolGet pool "index.json".data
          rw [hrec2, hpool1]

theorem buildRun_noPrior (ctx : Ctx) (pkgs : List SourcePkg) (pool : Pool)
    (hpg : poolGet pool "index.json".data = none) :
    buildRun ctx pkgs pool =
      (match buildLoop ctx pkgs (Json.obj .onil) pool with
       | (l, pool2, r) =>
         match r with
         | .error e => ⟨1, pool2, l ++ [excMsg e, hintLine], none, some e⟩
         | .ok pk => ⟨0, poolSet pool2 "index.json".data (dumps pk),
             l ++ ["Writing index".data], some pk, none⟩) := by
  rw [buildRun, hpg]

theorem buildRun_withPrior (ctx : Ctx) (pkgs : List SourcePkg) (pool : Pool)
    (cs : Str) (J : Json)
    (hpg : poolGet pool "index.json".data = some cs) (hl : loadsStr cs = .ok J) :
    buildRun ctx pkgs pool =
      (match buildLoop ctx pkgs J pool with
       | (l, pool2, r) =>
         match r with
         | .error e => ⟨1, pool2, l ++ [excMsg e, hintLine], none, some e⟩
         | .ok pk => ⟨0, poolSet pool2 "index.json".data (dumps pk),
             l ++ ["Writing index".data], some pk, none⟩) := by
  simp only [buildRun, hpg, hl]

theorem buildRun_badPrior (ctx : Ctx) (pkgs : List SourcePkg) (pool : Pool)
    (cs : Str) (u : Unit)
    (hpg : poolGet pool "index.json".data = some cs) (hl : loadsStr cs = .error u) :
    buildRun ctx pkgs pool =
      ⟨1, pool, [excMsg .jsonDecode, hintLine], none, some .jsonDecode⟩ := by
  simp only [buildRun, hpg, hl]


/-- Claim C7: if any error is raised during the build-mode run — an unexpected
exception in the per-package loop, or a prior index file that exists but does
not parse — the run exits with code 1, prints the operator hint to retry with
repair mode, and the index file is not written: `index.json` in the pool is
exactly what it was before the run. -/
theorem c7_abort_leaves_index (ctx : Ctx) (pkgs : List SourcePkg) (pool : Pool) (e : Exc)
    (h : (buildRun ctx pkgs pool).err = some e) :
    (buildRun ctx pkgs pool).exit = 1 ∧
    hintLine ∈ (buildRun ctx pkgs pool).logs ∧
    (buildRun ctx pkgs pool).indexJson = none ∧
    poolGet (buildRun ctx pkgs pool).pool "index.json".data =
      poolGet pool "index.json".data := by
  cases hpg : poolGet pool "index.json".data with
  | none =>
    rw [buildRun_noPrior ctx pkgs pool hpg] at h ⊢
    rcases hloop : buildLoop ctx pkgs (Json.obj .onil) pool with ⟨l, pool2, r⟩
    rw [hloop] at h
    cases r with
    | error e2 =>
      refine ⟨rfl, ?_, rfl, ?_⟩
      · show hintLine ∈ l ++ [excMsg e2, hintLine]
        simp
      · show poolGet pool2 "index.json".data = none
        have hh := buildLoop_pool_index ctx pkgs (Json.obj .onil) pool
        rw [hloop] at hh
        exact hh.trans hpg
    | ok pk =>
      have h2 : (none : Option Exc) = some e := h
      cases h2
  | some cs =>
    cases hl : loadsStr cs with
    | error u =>
      rw [buildRun_badPrior ctx pkgs pool cs u hpg hl] at h ⊢
      refine ⟨rfl, ?_, rfl, hpg⟩
      show hintLine ∈ [excMsg Exc.jsonDecode, hintLine]
      simp
    | ok J =>
      rw [buildRun_withPrior ctx pkgs pool cs J hpg hl] at h ⊢
      rcases hloop : buildLoop ctx pkgs J pool with ⟨l, pool2, r⟩
      rw [hloop] at h
      cases r with
      | error e2 =>
        refine ⟨rfl, ?_, rfl, ?_⟩
        · show hintLine ∈ l ++ [excMsg e2, hintLine]
          simp
        · show poolGet pool2 "index.json".data = some cs
          have hh := buildLoop_pool_index ctx pkgs J pool
          rw [hloop] at hh
          exact hh.trans hpg
      | ok pk =>
        have h2 : (none : Option Exc) = some e := h
        cases h2

/-- A package whose manifest lacks the mandatory `version` field: building it
raises `KeyError: 'version'` at the archive-naming f-string. -/
def pkgNoVer : SourcePkg :=
  ⟨"p".data, some "\x7b\"description\": \"d\", \"dependencies\": []\x7d".data, []⟩

theorem c7_abort_leaves_index_witness :
    (buildRun ctxId [pkgNoVer] []).exit = 1 ∧
    hintLine ∈ (buildRun ctxId [pkgNoVer] []).logs ∧
    (buildRun ctxId [pkgNoVer] []).indexJson = none ∧
    poolGet (buildRun ctxId [pkgNoVer] []).pool "index.json".data =
      poolGet ([] : Pool) "index.json".data :=
  c7_abort_leaves_index ctxId [pkgNoVer] [] (.keyError "version".data) (by decide)

/-! ## Claim C10: records missing mandatory keys abort repair mode -/

theorem takeWhile_append_dot (v : Str) : ∀ (n : Str), '.' ∉ n →
    (n ++ '.' :: v).takeWhile (fun c => c ≠ '.') = n ∧
    (n ++ '.' :: v).dropWhile (fun c => c ≠ '.') = '.' :: v
  | [], _ => by simp [List.takeWhile, List.dropWhile]
  | c :: t, hn => by
    have hc : c ≠ '.' := fun he => hn (he ▸ List.mem_cons_self c t)
    have ht : '.' ∉ t := fun hm => hn (List.mem_cons_of_mem c hm)
    have ih := takeWhile_append_dot v t ht
    constructor
    · rw [List.cons_append, List.takeWhile_cons_of_pos (by simp [hc]), ih.1]
    · rw [List.cons_append, List.dropWhile_cons_of_pos (by simp [hc]), ih.2]

/-- A pool file named `{n}.{v}.ccp` with a dot-free package name splits back
into the name and the version. -/
theorem parsePoolName_ccp (n v : Str) (hn : '.' ∉ n) :
    parsePoolName (n ++ '.' :: (v ++ ".ccp".data)) = .ok (n, v) := by
  have hsplit : n ++ '.' :: (v ++ ".ccp".data) = (n ++ '.' :: v) ++ ".ccp".data := by
    simp
  have h4 : (".ccp".data : Str).length = 4 := rfl
  have hlen : ((n ++ '.' :: v) ++ ".ccp".data).length - 4 = (n ++ '.' :: v).length := by
    simp only [List.length_append, List.length_cons, h4]
    omega
  have hbase : (n ++ '.' :: (v ++ ".ccp".data)).take
      ((n ++ '.' :: (v ++ ".ccp".data)).length - 4) = n ++ '.' :: v := by
    rw [hsplit, hlen, List.take_left]
  have htw := takeWhile_append_dot v n hn
  rw [parsePoolName, hbase, htw.2, htw.1]
  rfl

/-- Upserting a record with no `description` key into a fresh index raises
`KeyError: 'description'` (line 184). -/
theorem upsertRepair_noDesc (n : Str) (mo : JsonObj) (v dg : Str)
    (hd : mo.lookup "description".data = none) :
    upsertRepair (.obj .onil) n (.obj mo) v dg =
      .error (.keyError "description".data) := by
  simp [upsertRepair, pyContains, ensureEntry, pySetItem, pyGetItem,
    JsonObj.lookup, hd, Bind.bind, Except.bind, pure, Except.pure]

/-- Upserting a record with a `description` but no `dependencies` key into a
fresh index raises `KeyError: 'dependencies'` (line 188). -/
theorem upsertRepair_noDeps (n : Str) (mo : JsonObj) (v dg : Str) (d : Json)
    (hd : mo.lookup "description".data = some d)
    (hdep : mo.lookup "dependencies".data = none) :
    upsertRepair (.obj .onil) n (.obj mo) v dg =
      .error (.keyError "dependencies".data) := by
  simp [upsertRepair, pyContains, ensureEntry, pySetItem, pyGetItem, freshEntry,
    JsonObj.set, JsonObj.lookup, hd, hdep, Bind.bind, Except.bind, pure, Except.pure]

/-- A repair run over a single syntactically well-named archive whose record
upsert raises, aborts with that exception: exit 1, no index written, pool
untouched. -/
theorem repairRun_single_abort (ctx : Ctx) (n v data : Str) (mo : JsonObj) (e : Exc)
    (hn : '.' ∉ n)
    (hfn : n ++ '.' :: (v ++ ".ccp".data) ≠ "index.json".data)
    (hdec : decodeArchive ctx data = .ok (.obj mo))
    (hup : upsertRepair (.obj .onil) n (.obj mo) v (ctx.digest (utf8Encode data)) =
      .error e) :
    repairRun ctx [(n ++ '.' :: (v ++ ".ccp".data), data)] =
      ⟨1, [(n ++ '.' :: (v ++ ".ccp".data), data)],
        ("Indexing ".data ++ n) :: ["[+] Version ".data ++ v] ++ [excMsg e, hintLine],
        none, some e⟩ := by
  have hA : get_built_packages [(n ++ '.' :: (v ++ ".ccp".data), data)] =
      .ok [(n, [v])] := by
    rw [get_built_packages]
    rw [show List.filter (fun e => decide (e.1 ≠ "index.json".data))
        [(n ++ '.' :: (v ++ ".ccp".data), data)] =
        [(n ++ '.' :: (v ++ ".ccp".data), data)] from by simp [List.filter, hfn]]
    rw [groupEntries, parsePoolName_ccp n v hn]
    rfl
  have hRP : read_package ctx [(n ++ '.' :: (v ++ ".ccp".data), data)] n v =
      ([], .ok (some ⟨.obj mo, ctx.digest (utf8Encode data)⟩)) := by
    simp only [read_package,
      show poolGet [(n ++ '.' :: (v ++ ".ccp".data), data)]
        (n ++ '.' :: (v ++ ".ccp".data)) = some data from by simp [poolGet], hdec]
  have hRV : repairVersions ctx [(n ++ '.' :: (v ++ ".ccp".data), data)] n [v]
      (.obj .onil) = (["[+] Version ".data ++ v], .error e) := by
    simp only [repairVersions, hRP, hup]
    rfl
  have hRL : repairLoop ctx [(n ++ '.' :: (v ++ ".ccp".data), data)] [(n, [v])]
      (.obj .onil) =
      (("Indexing ".data ++ n) :: ["[+] Version ".data ++ v], .error e) := by
    simp only [repairLoop, hRV]
  rw [repairRun, hA]
  simp only [hRL]

/-- Claim C10: in repair mode, an archive that base64-decodes, decompresses and
JSON-parses successfully but whose record lacks the `description` or the
`dependencies` key raises an uncaught `KeyError` that escapes the per-version
loop: the whole run aborts with exit code 1, no index is written, and the pool
is left unchanged — the archive is not skipped and logged like a corrupted
one. -/
theorem c10_missing_keys_abort_repair (ctx : Ctx) (n v data : Str) (mo : JsonObj)
    (hn : '.' ∉ n)
    (hfn : n ++ '.' :: (v ++ ".ccp".data) ≠ "index.json".data)
    (hdec : decodeArchive ctx data = .ok (.obj mo))
    (hmiss : mo.lookup "description".data = none ∨
      (∃ d, mo.lookup "description".data = some d ∧
        mo.lookup "dependencies".data = none)) :
    ∃ k, (k = "description".data ∨ k = "dependencies".data) ∧
      (repairRun ctx [(n ++ '.' :: (v ++ ".ccp".data), data)]).err =
        some (.keyError k) ∧
      (repairRun ctx [(n ++ '.' :: (v ++ ".ccp".data), data)]).exit = 1 ∧
      (repairRun ctx [(n ++ '.' :: (v ++ ".ccp".data), data)]).indexJson = none ∧
      (repairRun ctx [(n ++ '.' :: (v ++ ".ccp".data), data)]).pool =
        [(n ++ '.' :: (v ++ ".ccp".data), data)] := by
  rcases hmiss with hd | ⟨d, hd, hdep⟩
  · refine ⟨"description".data, Or.inl rfl, ?_⟩
    rw [repairRun_single_abort ctx n v data mo (.keyError "description".data) hn hfn hdec
      (upsertRepair_noDesc n mo v (ctx.digest (utf8Encode data)) hd)]
    exact ⟨rfl, rfl, rfl, rfl⟩
  · refine ⟨"dependencies".data, Or.inr rfl, ?_⟩
    rw [repairRun_single_abort ctx n v data mo (.keyError "dependencies".data) hn hfn hdec
      (upsertRepair_noDeps n mo v (ctx.digest (utf8Encode data)) d hd hdep)]
    exact ⟨rfl, rfl, rfl, rfl⟩

theorem c10_missing_keys_abort_repair_witness :
    ∃ k, (k = "description".data ∨ k = "dependencies".data) ∧
      (repairRun ctxId [("p".data ++ '.' :: ("1".data ++ ".ccp".data), "e30=".data)]).err =
        some (.keyError k) ∧
      (repairRun ctxId [("p".data ++ '.' :: ("1".data ++ ".ccp".data), "e30=".data)]).exit = 1 ∧
      (repairRun ctxId [("p".data ++ '.' :: ("1".data ++ ".ccp".data), "e30=".data)]).indexJson = none ∧
      (repairRun ctxId [("p".data ++ '.' :: ("1".data ++ ".ccp".data), "e30=".data)]).pool =
        [("p".data ++ '.' :: ("1".data ++ ".ccp".data), "e30=".data)] :=
  c10_missing_keys_abort_repair ctxId "p".data "1".data "e30=".data .onil
    (by decide) (by decide) (by rfl) (Or.inl rfl)

/-! ## Claim C8: extra manifest keys survive the build -/

/-- Each `addFiles` step only rewrites the `files` key of the record: every
other key keeps the value it had before. -/
theorem addFiles_frame (ctx : Ctx) : ∀ (fs : List (Str × Str)) (m : Json)
    (l : List Str) (r : Json), addFiles ctx m fs = (l, .ok r) →
    ∀ k, k ≠ "files".data → jLookup r k = jLookup m k
  | [], m, l, r => by
    intro h k _
    simp only [addFiles, Prod.mk.injEq] at h
    rw [← Except.ok.inj h.2]
  | (path, content) :: fs, m, l, r => by
    intro h k hk
    simp only [addFiles] at h
    cases m with
    | obj mo =>
      cases hlk : mo.lookup "files".data with
      | none =>
        simp only [pyGetItem, hlk, Bind.bind, Except.bind] at h
        simp at h
      | some filesJ =>
        cases filesJ with
        | obj fo =>
          simp only [pyGetItem, hlk, pySetItem, Bind.bind, Except.bind] at h
          rcases haf : addFiles ctx
              (.obj (mo.set "files".data (.obj (fo.set path
                (.obj (.ocons "content".data (.str content)
                  (.ocons "digest".data
                    (.str (ctx.digest (utf8Encode content))) .onil))))))) fs
            with ⟨ls, r2⟩
          rw [haf] at h
          simp only [Prod.mk.injEq] at h
          cases r2 with
          | error e => simp at h
          | ok rr =>
            have hr : rr = r := Except.ok.inj h.2
            subst hr
            have ih := addFiles_frame ctx fs _ ls rr haf k hk
            rw [ih]
            show (JsonObj.set mo "files".data _).lookup k = jLookup (.obj mo) k
            exact JsonObj.lookup_set_ne mo "files".data _ k hk
        | null => simp [pyGetItem, hlk, pySetItem, Bind.bind, Except.bind] at h
        | bool b => simp [pyGetItem, hlk, pySetItem, Bind.bind, Except.bind] at h
        | num i => simp [pyGetItem, hlk, pySetItem, Bind.bind, Except.bind] at h
        | str s => simp [pyGetItem, hlk, pySetItem, Bind.bind, Except.bind] at h
        | arr a => simp [pyGetItem, hlk, pySetItem, Bind.bind, Except.bind] at h
    | null => simp [pyGetItem, Bind.bind, Except.bind] at h
    | bool b => simp [pyGetItem, Bind.bind, Except.bind] at h
    | num i => simp [pyGetItem, Bind.bind, Except.bind] at h
    | str s => simp [pyGetItem, Bind.bind, Except.bind] at h
    | arr a => simp [pyGetItem, Bind.bind, Except.bind] at h

/-- A source package whose manifest carries an unrecognized `files` key. -/
def pkgC8 : SourcePkg :=
  ⟨"p".data, some "\x7b\"description\": \"d\", \"version\": \"1.0\", \"dependencies\": [], \"files\": \"KEEP\"\x7d".data, []⟩

/-- The parsed manifest of `pkgC8`. -/
def mC8 : Json :=
  match loadsStr "\x7b\"description\": \"d\", \"version\": \"1.0\", \"dependencies\": [], \"files\": \"KEEP\"\x7d".data with
  | .ok j => j
  | .error _ => .null

/-- The record `build_package` produces for `pkgC8`. -/
def recC8 : Json :=
  match (build_package ctxId pkgC8).2 with
  | .ok (some r) => r
  | _ => .null

theorem c8_files_key_clobbered :
    "files".data ∉ manifestFields ∧
    jLookup mC8 "files".data = some (.str "KEEP".data) ∧
    (build_package ctxId pkgC8).2 = .ok (some recC8) ∧
    jLookup recC8 "files".data ≠ jLookup mC8 "files".data :=
  ⟨by decide, by rfl, by rfl, by decide⟩

/-- Claim C8 (amended): an extra manifest key other than `files` and its value
are preserved unmodified in the built PackageRecord; the `files` key itself is
unconditionally overwritten with the freshly built files map (line 103), so a
manifest value under `files` is not preserved. -/
theorem c8_extra_keys_preserved (ctx : Ctx) (p : SourcePkg) (cs : Str)
    (m r : Json) (l : List Str)
    (hman : p.manifest = some cs) (hload : loadsStr cs = .ok m)
    (hbuild : build_package ctx p = (l, .ok (some r))) :
    ∀ k, k ∉ manifestFields → k ≠ "files".data → jLookup r k = jLookup m k := by
  intro k _ hk
  rcases hfw : fieldWarnLogs m manifestFields with ⟨wl, res⟩
  have hgm : get_manifest p =
      ("[i] Reading manifest".data :: wl, res.map (fun _ => some m)) := by
    simp only [get_manifest, hman, hload, hfw]
    rfl
  rw [build_package, hgm] at hbuild
  cases res with
  | error e => simp [Except.map] at hbuild
  | ok u =>
    simp only [Except.map] at hbuild
    cases m with
    | obj mo =>
      simp only [pySetItem] at hbuild
      rcases haf : addFiles ctx (.obj (mo.set "files".data (.obj .onil))) p.files
        with ⟨l2, r2⟩
      rw [haf] at hbuild
      cases r2 with
      | error e => simp [Except.map] at hbuild
      | ok rr =>
        simp only [Except.map, Prod.mk.injEq] at hbuild
        have hr : rr = r := Option.some.inj (Except.ok.inj hbuild.2)
        subst hr
        have hframe := addFiles_frame ctx p.files _ l2 rr haf k hk
        rw [hframe]
        show (JsonObj.set mo "files".data _).lookup k = jLookup (.obj mo) k
        exact JsonObj.lookup_set_ne mo "files".data _ k hk
    | null => simp [pySetItem] at hbuild
    | bool b => simp [pySetItem] at hbuild
    | num i => simp [pySetItem] at hbuild
    | str s => simp [pySetItem] at hbuild
    | arr a => simp [pySetItem] at hbuild

/-- A source package whose manifest carries a preserved extra key `extra`. -/
def pkgC8w : SourcePkg :=
  ⟨"p".data, some "\x7b\"description\": \"d\", \"version\": \"1.0\", \"dependencies\": [], \"extra\": 5\x7d".data, []⟩

/-- The parsed manifest of `pkgC8w`. -/
def mC8w : Json :=
  match loadsStr "\x7b\"description\": \"d\", \"version\": \"1.0\", \"dependencies\": [], \"extra\": 5\x7d".data with
  | .ok j => j
  | .error _ => .null

/-- The record `build_package` produces for `pkgC8w`. -/
def recC8w : Json :=
  match (build_package ctxId pkgC8w).2 with
  | .ok (some r) => r
  | _ => .null

theorem c8_extra_keys_preserved_witness :
    jLookup recC8w "extra".data = jLookup mC8w "extra".data :=
  c8_extra_keys_preserved ctxId pkgC8w
    "\x7b\"description\": \"d\", \"version\": \"1.0\", \"dependencies\": [], \"extra\": 5\x7d".data
    mC8w recC8w (build_package ctxId pkgC8w).1 rfl rfl rfl
    "extra".data (by decide) (by decide)

/-! ## Forward success lemmas for the build pipeline -/

/-- An index entry in working shape: a dict whose `versions` key holds a
dict. -/
def goodEntry : Json → Bool
  | .obj eo =>
    match eo.lookup "versions".data with
    | some (.obj _) => true
    | _ => false
  | _ => false

/-- Every entry of the index is in working shape. -/
def goodIndexO : JsonObj → Bool
  | .onil => true
  | .ocons _ v t => goodEntry v && goodIndexO t

theorem goodIndexO_lookup : ∀ (po : JsonObj) (n : Str) (e : Json),
    goodIndexO po = true → po.lookup n = some e → goodEntry e = true
  | .onil, n, e => by intro _ h; simp [JsonObj.lookup] at h
  | .ocons k v t, n, e => by
    intro hg hl
    simp only [goodIndexO, Bool.and_eq_true] at hg
    simp only [JsonObj.lookup] at hl
    by_cases hk : k = n
    · rw [if_pos hk] at hl
      rw [← Option.some.inj hl]
      exact hg.1
    · rw [if_neg hk] at hl
      exact goodIndexO_lookup t n e hg.2 hl

theorem goodIndexO_set : ∀ (po : JsonObj) (k : Str) (e : Json),
    goodIndexO po = true → goodEntry e = true → goodIndexO (po.set k e) = true
  | .onil, k, e => by
    intro _ he
    simp [JsonObj.set, goodIndexO, he]
  | .ocons k2 v t, k, e => by
    intro hg he
    simp only [goodIndexO, Bool.and_eq_true] at hg
    rw [JsonObj.set]
    by_cases hk : k2 = k
    · rw [if_pos hk]
      simp [goodIndexO, he, hg.2]
    · rw [if_neg hk]
      simp [goodIndexO, hg.1, goodIndexO_set t k e hg.2 he]

theorem JsonObj.set_set_same : ∀ (po : JsonObj) (k : Str) (a b : Json),
    (po.set k a).set k b = po.set k b
  | .onil, k, a, b => by simp [JsonObj.set]
  | .ocons k2 v t, k, a, b => by
    rw [JsonObj.set]
    by_cases hk : k2 = k
    · rw [if_pos hk, JsonObj.set, if_pos hk, JsonObj.set, if_pos hk]
    · rw [if_neg hk, JsonObj.set, if_neg hk, JsonObj.set, if_neg hk,
        JsonObj.set_set_same t k a b]

/-- On a dict manifest the warning loop never raises: it returns one warning
line per absent recognized field, in field order. -/
theorem fieldWarnLogs_obj (mo : JsonObj) : ∀ ks : List Str,
    fieldWarnLogs (.obj mo) ks =
      ((ks.filter (fun k => (mo.lookup k).isNone)).map
        (fun k => "[!] Package manifest is incomplete (missing '".data ++ k ++ "')".data),
       .ok ())
  | [] => rfl
  | k :: ks => by
    rw [fieldWarnLogs]
    cases hlk : mo.lookup k with
    | none =>
      simp only [pyContains, hlk, Option.isSome]
      rw [fieldWarnLogs_obj mo ks]
      simp [List.filter, hlk]
    | some w =>
      simp only [pyContains, hlk, Option.isSome]
      rw [fieldWarnLogs_obj mo ks]
      simp [List.filter, hlk]

/-- `addFiles` never raises when the record's `files` key holds a dict: it
returns a dict record. -/
theorem addFiles_ok (ctx : Ctx) : ∀ (fs : List (Str × Str)) (mo fo : JsonObj),
    mo.lookup "files".data = some (.obj fo) →
    ∃ l ro, addFiles ctx (.obj mo) fs = (l, .ok (.obj ro))
  | [], mo, fo => by
    intro _
    exact ⟨[], mo, rfl⟩
  | (path, content) :: fs, mo, fo => by
    intro hlk
    obtain ⟨l, ro, ih⟩ := addFiles_ok ctx fs
      (mo.set "files".data (.obj (fo.set path
        (.obj (.ocons "content".data (.str content)
          (.ocons "digest".data (.str (ctx.digest (utf8Encode content))) .onil)))))) 
      (fo.set path
        (.obj (.ocons "content".data (.str content)
          (.ocons "digest".data (.str (ctx.digest (utf8Encode content))) .onil))))
      (JsonObj.lookup_set_self mo "files".data _)
    refine ⟨("[+] ".data ++ path) :: l, ro, ?_⟩
    simp only [addFiles, pyGetItem, hlk, pySetItem, Bind.bind, Except.bind, ih]

/-- `build_package` on a package whose manifest parses to a dict succeeds and
returns a dict record that agrees with the manifest outside `files`. -/
theorem build_package_ok (ctx : Ctx) (p : SourcePkg) (cs : Str) (mo : JsonObj)
    (hman : p.manifest = some cs) (hload : loadsStr cs = .ok (.obj mo)) :
    ∃ l ro, build_package ctx p = (l, .ok (some (.obj ro))) ∧
      ∀ k, k ≠ "files".data → ro.lookup k = mo.lookup k := by
  have hgm : get_manifest p =
      ("[i] Reading manifest".data ::
        ((manifestFields.filter (fun k => (mo.lookup k).isNone)).map
          (fun k => "[!] Package manifest is incomplete (missing '".data ++ k ++ "')".data)),
       .ok (some (.obj mo))) := by
    simp only [get_manifest, hman, hload, fieldWarnLogs_obj mo manifestFields]
    rfl
  obtain ⟨l2, ro, haf⟩ := addFiles_ok ctx p.files (mo.set "files".data (.obj .onil)) .onil
    (JsonObj.lookup_set_self mo "files".data _)
  refine ⟨("[i] Reading manifest".data ::
      ((manifestFields.filter (fun k => (mo.lookup k).isNone)).map
        (fun k => "[!] Package manifest is incomplete (missing '".data ++ k ++ "')".data))) ++ l2,
    ro, ?_, ?_⟩
  · simp only [build_package, hgm, pySetItem, haf]
    rfl
  · intro k hk
    have h1 := addFiles_frame ctx p.files _ l2 (.obj ro) haf k hk
    simp only [jLookup] at h1
    rw [h1]
    exact JsonObj.lookup_set_ne mo "files".data _ k hk

/-- Bytes of an encoded archive are ASCII. -/
theorem compress_ascii (ctx : Ctx) (pkg : Json) : ∀ x ∈ compress ctx pkg, x < 128 := by
  intro x hx
  simp only [compress, List.mem_map] at hx
  obtain ⟨c, hc, rfl⟩ := hx
  exact b64encodeChars_ascii _ c hc

/-- `build_and_write_package` on a dict manifest with a string `version`
succeeds: it writes `{name}.{version}.ccp` and returns the record and the
digest of the encoded bytes. -/
theorem bwp_ok (ctx : Ctx) (p : SourcePkg) (pool : Pool) (cs : Str) (mo : JsonObj) (v : Str)
    (hman : p.manifest = some cs) (hload : loadsStr cs = .ok (.obj mo))
    (hv : mo.lookup "version".data = some (.str v)) :
    ∃ l ro, build_and_write_package ctx p pool =
        (l, poolSet pool (p.name ++ '.' :: (v ++ ".ccp".data))
          (asciiStr (compress ctx (.obj ro))),
         .ok (some ⟨.obj ro, ctx.digest (compress ctx (.obj ro))⟩)) ∧
      ∀ k, k ≠ "files".data → ro.lookup k = mo.lookup k := by
  obtain ⟨l, ro, hbp, hframe⟩ := build_package_ok ctx p cs mo hman hload
  have hver : ro.lookup "version".data = some (.str v) := by
    rw [hframe "version".data (by decide), hv]
  have hdecu : utf8Decode (compress ctx (.obj ro)) =
      some (asciiStr (compress ctx (.obj ro))) :=
    utf8Decode_ascii _ (compress_ascii ctx (.obj ro))
  refine ⟨("Packaging ".data ++ p.name) :: l, ro, ?_, hframe⟩
  simp only [build_and_write_package, hbp, pyGetItem, hver, hdecu, pyToStr]
  rfl

/-- The incremental upsert never raises on a working index and a manifest
that has `description`, `dependencies` and a string `version`: it yields a
working index with an entry for the name and all other names untouched. -/
theorem upsertMain_ok (po mo : JsonObj) (name : Str) (bp : BuiltPkg) (d dep : Json) (v : Str)
    (hbp : bp.manifest = .obj mo) (hgood : goodIndexO po = true)
    (hd : mo.lookup "description".data = some d)
    (hdep : mo.lookup "dependencies".data = some dep)
    (hv : mo.lookup "version".data = some (.str v)) :
    ∃ po2, upsertMain (.obj po) name bp = .ok (.obj po2) ∧
      goodIndexO po2 = true ∧ (po2.lookup name).isSome = true ∧
      ∀ k, k ≠ name → po2.lookup k = po.lookup k := by
  cases hpn : po.lookup name with
  | none =>
    refine ⟨po.set name (.obj (.ocons "description".data d
        (.ocons "versions".data (.obj (.ocons v (.obj (.ocons "digest".data (.str bp.digest)
            (.ocons "dependencies".data dep .onil))) .onil))
          (.ocons "latest_version".data (.str v) .onil)))), ?_, ?_, ?_, ?_⟩
    · simp +decide [upsertMain, Bind.bind, Except.bind, pure, Except.pure, pyContains,
        hpn, ensureEntry, pySetItem, pyGetItem, pyDictKey, hbp, hd, hdep, hv,
        JsonObj.lookup_set_self, JsonObj.lookup_set_ne, freshEntry, JsonObj.set,
        JsonObj.lookup, JsonObj.set_set_same]
    · refine goodIndexO_set po name _ hgood ?_
      simp +decide [goodEntry, JsonObj.lookup]
    · rw [JsonObj.lookup_set_self]
      rfl
    · intro k hk
      exact JsonObj.lookup_set_ne po name _ k hk
  | some e =>
    have hge := goodIndexO_lookup po name e hgood hpn
    cases e with
    | obj eo =>
      cases hev : eo.lookup "versions".data with
      | some w =>
        cases w with
        | obj vo =>
          refine ⟨po.set name (.obj (((eo.set "description".data d).set "versions".data
              (.obj (vo.set v (.obj (.ocons "digest".data (.str bp.digest)
                (.ocons "dependencies".data dep .onil)))))).set "latest_version".data
                  (.str v))), ?_, ?_, ?_, ?_⟩
          · simp +decide [upsertMain, Bind.bind, Except.bind, pure, Except.pure, pyContains,
              hpn, ensureEntry, pySetItem, pyGetItem, pyDictKey, hbp, hd, hdep, hv, hev,
              JsonObj.lookup_set_self, JsonObj.lookup_set_ne, JsonObj.set_set_same]
          · refine goodIndexO_set po name _ hgood ?_
            rw [goodEntry, JsonObj.lookup_set_ne _ _ _ _ (by decide),
              JsonObj.lookup_set_self]
          · rw [JsonObj.lookup_set_self]
            rfl
          · intro k hk
            exact JsonObj.lookup_set_ne po name _ k hk
        | null => simp [goodEntry, hev] at hge
        | bool b => simp [goodEntry, hev] at hge
        | num i => simp [goodEntry, hev] at hge
        | str s => simp [goodEntry, hev] at hge
        | arr a => simp [goodEntry, hev] at hge
      | none => simp [goodEntry, hev] at hge
    | null => simp [goodEntry] at hge
    | bool b => simp [goodEntry] at hge
    | num i => simp [goodEntry] at hge
    | str s => simp [goodEntry] at hge
    | arr a => simp [goodEntry] at hge

/-- A source package the build pipeline fully accepts: the manifest parses to
a dict that has `description`, `dependencies` and a string `version`. -/
def ValidSrc (p : SourcePkg) : Prop :=
  ∃ cs mo, p.manifest = some cs ∧ loadsStr cs = .ok (.obj mo) ∧
    (∃ d, mo.lookup "description".data = some d) ∧
    (∃ dep, mo.lookup "dependencies".data = some dep) ∧
    (∃ v, mo.lookup "version".data = some (.str v))

/-- The build loop never raises over packages that are valid or lack their
manifest: it returns a working index holding an entry per valid package and
logs the invalid-package warning for each package without a manifest. -/
theorem buildLoop_allgood (ctx : Ctx) : ∀ (pkgs : List SourcePkg) (po : JsonObj) (pool : Pool),
    goodIndexO po = true →
    (∀ p ∈ pkgs, ValidSrc p ∨ p.manifest = none) →
    ∃ l pool2 po2, buildLoop ctx pkgs (.obj po) pool = (l, pool2, .ok (.obj po2)) ∧
      goodIndexO po2 = true ∧
      (∀ n, (po.lookup n).isSome = true → (po2.lookup n).isSome = true) ∧
      (∀ p ∈ pkgs, ValidSrc p → (po2.lookup p.name).isSome = true) ∧
      (∀ p ∈ pkgs, p.manifest = none →
        "[!] Package is invalid (no manifest)".data ∈ l)
  | [], po, pool => by
    intro hgood _
    refine ⟨[], pool, po, rfl, hgood, fun n h => h, ?_, ?_⟩ <;> simp
  | p :: ps, po, pool => by
    intro hgood hall
    rcases hall p (List.mem_cons_self p ps) with hvalid | hnone
    · obtain ⟨cs, mo, hman, hload, ⟨d, hd⟩, ⟨dep, hdep⟩, ⟨v, hv⟩⟩ := hvalid
      obtain ⟨l1, ro, hbw, hframe⟩ := bwp_ok ctx p pool cs mo v hman hload hv
      have hd2 : ro.lookup "description".data = some d := by
        rw [hframe "description".data (by decide)]; exact hd
      have hdep2 : ro.lookup "dependencies".data = some dep := by
        rw [hframe "dependencies".data (by decide)]; exact hdep
      have hv2 : ro.lookup "version".data = some (.str v) := by
        rw [hframe "version".data (by decide)]; exact hv
      obtain ⟨po1, hup, hg1, hsome1, hframe1⟩ := upsertMain_ok po ro p.name
        ⟨.obj ro, ctx.digest (compress ctx (.obj ro))⟩ d dep v rfl hgood hd2 hdep2 hv2
      obtain ⟨l2, pool2, po2, hloop, hg2, hpres2, hvalid2, hmiss2⟩ :=
        buildLoop_allgood ctx ps po1
          (poolSet pool (p.name ++ '.' :: (v ++ ".ccp".data))
            (asciiStr (compress ctx (.obj ro))))
          hg1 (fun q hq => hall q (List.mem_cons_of_mem p hq))
      refine ⟨l1 ++ l2, pool2, po2, ?_, hg2, ?_, ?_, ?_⟩
      · simp only [buildLoop, hbw, hup, hloop]
      · intro n hn
        by_cases hne : n = p.name
        · subst hne
          exact hpres2 p.name hsome1
        · refine hpres2 n ?_
          rw [hframe1 n hne]
          exact hn
      · intro q hq hqv
        rcases List.mem_cons.mp hq with rfl | hq2
        · exact hpres2 q.name hsome1
        · exact hvalid2 q hq2 hqv
      · intro q hq hqn
        rcases List.mem_cons.mp hq with rfl | hq2
        · rw [hman] at hqn
          cases hqn
        · exact List.mem_append_right l1 (hmiss2 q hq2 hqn)
    · have hbp : build_package ctx p =
          (["[i] Reading manifest".data, "[!] Package is invalid (no manifest)".data],
           .ok none) := by
        simp [build_package, get_manifest, hnone]
      have hbw : build_and_write_package ctx p pool =
          (("Packaging ".data ++ p.name) ::
            ["[i] Reading manifest".data, "[!] Package is invalid (no manifest)".data],
           pool, .ok none) := by
        simp [build_and_write_package, hbp]
      obtain ⟨l2, pool2, po2, hloop, hg2, hpres2, hvalid2, hmiss2⟩ :=
        buildLoop_allgood ctx ps po pool hgood
          (fun q hq => hall q (List.mem_cons_of_mem p hq))
      refine ⟨(("Packaging ".data ++ p.name) ::
          ["[i] Reading manifest".data, "[!] Package is invalid (no manifest)".data]) ++ l2,
        pool2, po2, ?_, hg2, hpres2, ?_, ?_⟩
      · simp only [buildLoop, hbw, hloop]
      · intro q hq hqv
        rcases List.mem_cons.mp hq with rfl | hq2
        · obtain ⟨cs, mo, hman, _⟩ := hqv
          rw [hnone] at hman
          cases hman
        · exact hvalid2 q hq2 hqv
      · intro q hq hqn
        rcases List.mem_cons.mp hq with rfl | hq2
        · simp
        · exact List.mem_append_right _ (hmiss2 q hq2 hqn)

/-! ## Claim C3: missing manifest fields warn, and the build goes on -/

/-- The parsed manifest of `pkgNoVer`. -/
def moNoVer : JsonObj :=
  match loadsStr "\x7b\"description\": \"d\", \"dependencies\": []\x7d".data with
  | .ok (.obj o) => o
  | _ => .onil

theorem c3_missing_version_aborts_run :
    pkgNoVer.manifest = some "\x7b\"description\": \"d\", \"dependencies\": []\x7d".data ∧
    loadsStr "\x7b\"description\": \"d\", \"dependencies\": []\x7d".data = .ok (.obj moNoVer) ∧
    moNoVer.lookup "version".data = none ∧
    (buildRun ctxId [pkgNoVer] []).exit = 1 ∧
    (buildRun ctxId [pkgNoVer] []).err = some (.keyError "version".data) ∧
    (buildRun ctxId [pkgNoVer] []).indexJson = none :=
  ⟨rfl, rfl, by decide, by decide, by decide, by decide⟩

/-- Claim C3 (amended): for a package whose manifest parses to a dict, the
loader logs exactly one warning per absent recognized field and returns the
mapping; the build of that package and the whole run then complete without
aborting provided the absent fields are only among the tolerated ones — that
is, `description`, `dependencies` and a string `version` are present.  (The
original claim is false for every recognized field: a manifest missing
`version` aborts the run with `KeyError: 'version'`.) -/
theorem c3_warn_per_missing_field (ctx : Ctx) (p : SourcePkg) (cs : Str) (mo : JsonObj)
    (pool : Pool) (hman : p.manifest = some cs) (hload : loadsStr cs = .ok (.obj mo))
    (hpg : poolGet pool "index.json".data = none) :
    get_manifest p =
      ("[i] Reading manifest".data ::
        ((manifestFields.filter (fun k => (mo.lookup k).isNone)).map
          (fun k => "[!] Package manifest is incomplete (missing '".data ++ k ++ "')".data)),
       .ok (some (.obj mo))) ∧
    ((∃ d, mo.lookup "description".data = some d) →
     (∃ dep, mo.lookup "dependencies".data = some dep) →
     (∃ v, mo.lookup "version".data = some (.str v)) →
     (buildRun ctx [p] pool).exit = 0 ∧ (buildRun ctx [p] pool).err = none) := by
  constructor
  · simp only [get_manifest, hman, hload, fieldWarnLogs_obj mo manifestFields]
    rfl
  · intro hd hdep hv
    obtain ⟨l, pool2, po2, hloop, _, _, _, _⟩ :=
      buildLoop_allgood ctx [p] .onil pool rfl
        (fun q hq => by
          rw [List.mem_singleton] at hq
          subst hq
          exact Or.inl ⟨cs, mo, hman, hload, hd, hdep, hv⟩)
    rw [buildRun_noPrior ctx [p] pool hpg, hloop]
    exact ⟨rfl, rfl⟩

/-- A valid package missing only tolerated fields. -/
def pkgC3w : SourcePkg :=
  ⟨"w".data,
   some "\x7b\"description\": \"d\", \"version\": \"1.0\", \"dependencies\": []\x7d".data,
   []⟩

/-- The parsed manifest of `pkgC3w`. -/
def moC3w : JsonObj :=
  match loadsStr "\x7b\"description\": \"d\", \"version\": \"1.0\", \"dependencies\": []\x7d".data with
  | .ok (.obj o) => o
  | _ => .onil

theorem c3_warn_per_missing_field_witness :
    get_manifest pkgC3w =
      ("[i] Reading manifest".data ::
        ((manifestFields.filter (fun k => (moC3w.lookup k).isNone)).map
          (fun k => "[!] Package manifest is incomplete (missing '".data ++ k ++ "')".data)),
       .ok (some (.obj moC3w))) ∧
    (buildRun ctxId [pkgC3w] []).exit = 0 ∧ (buildRun ctxId [pkgC3w] []).err = none := by
  have h := c3_warn_per_missing_field ctxId pkgC3w
    "\x7b\"description\": \"d\", \"version\": \"1.0\", \"dependencies\": []\x7d".data
    moC3w [] rfl rfl rfl
  exact ⟨h.1, h.2 ⟨.str "d".data, rfl⟩ ⟨.arr .anil, rfl⟩ ⟨"1.0".data, rfl⟩⟩

/-! ## Claim C2: one missing manifest does not spoil the run -/

/-- A source package with no manifest file. -/
def pkgNoMan : SourcePkg := ⟨"q".data, none, []⟩

theorem c2_invalid_sibling_aborts :
    pkgNoMan.manifest = none ∧ pkgNoVer.manifest ≠ none ∧
    (buildRun ctxId [pkgNoMan, pkgNoVer] []).exit = 1 ∧
    (buildRun ctxId [pkgNoMan, pkgNoVer] []).err = some (.keyError "version".data) ∧
    (buildRun ctxId [pkgNoMan, pkgNoVer] []).indexJson = none :=
  ⟨rfl, by decide, by decide, by decide, by decide⟩

/-- Claim C2 (amended): in a source tree whose packages are all valid except
one with a missing manifest file and with no prior index, the run completes
with exit code 0, logs the invalid-package warning, and writes an index with
an entry for every valid package.  (The original claim is false as stated for
every source tree: any other package that fails — for example one whose
manifest lacks `version` — aborts the whole run with exit code 1.) -/
theorem c2_partial_failure_isolation (ctx : Ctx) (l1 l2 : List SourcePkg)
    (pk : SourcePkg) (pool : Pool)
    (hpk : pk.manifest = none)
    (hvalid : ∀ p ∈ l1 ++ l2, ValidSrc p)
    (hpg : poolGet pool "index.json".data = none) :
    (buildRun ctx (l1 ++ pk :: l2) pool).exit = 0 ∧
    "[!] Package is invalid (no manifest)".data ∈ (buildRun ctx (l1 ++ pk :: l2) pool).logs ∧
    ∃ P, (buildRun ctx (l1 ++ pk :: l2) pool).indexJson = some P ∧
      ∀ p ∈ l1 ++ l2, (jLookup P p.name).isSome = true := by
  have hall : ∀ p ∈ l1 ++ pk :: l2, ValidSrc p ∨ p.manifest = none := by
    intro q hq
    rcases List.mem_append.mp hq with h1 | h2
    · exact Or.inl (hvalid q (List.mem_append_left l2 h1))
    · rcases List.mem_cons.mp h2 with rfl | h3
      · exact Or.inr hpk
      · exact Or.inl (hvalid q (List.mem_append_right l1 h3))
  obtain ⟨l, pool2, po2, hloop, _, _, hval2, hmiss⟩ :=
    buildLoop_allgood ctx (l1 ++ pk :: l2) .onil pool rfl hall
  rw [buildRun_noPrior ctx (l1 ++ pk :: l2) pool hpg, hloop]
  refine ⟨rfl, ?_, .obj po2, rfl, ?_⟩
  · show "[!] Package is invalid (no manifest)".data ∈ l ++ ["Writing index".data]
    exact List.mem_append_left _
      (hmiss pk (List.mem_append_right l1 (List.mem_cons_self pk l2)) hpk)
  · intro q hq
    refine hval2 q ?_ (hvalid q hq)
    rcases List.mem_append.mp hq with h1 | h2
    · exact List.mem_append_left _ h1
    · exact List.mem_append_right l1 (List.mem_cons_of_mem pk h2)

/-- The parsed manifest of `pkgB`. -/
def moB : JsonObj :=
  match loadsStr "\x7b\"description\": \"d\", \"version\": \"1.0\", \"dependencies\": []\x7d".data with
  | .ok (.obj o) => o
  | _ => .onil

theorem c2_partial_failure_isolation_witness :
    (buildRun ctxId [pkgB, pkgNoMan] []).exit = 0 ∧
    "[!] Package is invalid (no manifest)".data ∈ (buildRun ctxId [pkgB, pkgNoMan] []).logs ∧
    ∃ P, (buildRun ctxId [pkgB, pkgNoMan] []).indexJson = some P ∧
      (jLookup P pkgB.name).isSome = true := by
  have h := c2_partial_failure_isolation ctxId [pkgB] [] pkgNoMan [] rfl
    (fun p hp => by
      rw [show ([pkgB] ++ [] : List SourcePkg) = [pkgB] from rfl, List.mem_singleton] at hp
      subst hp
      exact ⟨"\x7b\"description\": \"d\", \"version\": \"1.0\", \"dependencies\": []\x7d".data,
        moB, rfl, rfl, ⟨.str "d".data, rfl⟩, ⟨.arr .anil, rfl⟩, ⟨"1.0".data, rfl⟩⟩)
    rfl
  exact ⟨h.1, h.2.1, h.2.2.elim (fun P hP => ⟨P, hP.1, hP.2 pkgB (by simp)⟩)⟩

/-! ## Claim C4: repair-mode counting -/

/-- Number of keys of a dict. -/
def sizeO : JsonObj → Nat
  | .onil => 0
  | .ocons _ _ t => 1 + sizeO t

/-- Number of versions an index entry holds. -/
def entryVers : Json → Nat
  | .obj eo =>
    match eo.lookup "versions".data with
    | some (.obj vo) => sizeO vo
    | _ => 0
  | _ => 0

/-- Total number of version entries across the whole index. -/
def totalVersO : JsonObj → Nat
  | .onil => 0
  | .ocons _ e t => entryVers e + totalVersO t

/-- The versions dict the index holds for a name (empty when absent or
malformed). -/
def versionsAtD (po : JsonObj) (n : Str) : JsonObj :=
  match po.lookup n with
  | some (.obj eo) =>
    match eo.lookup "versions".data with
    | some (.obj vo) => vo
    | _ => .onil
  | _ => .onil

/-- The pool archive for `{n}.{v}.ccp` exists, decodes, and its record has
the two keys the repair upsert reads. -/
def isGoodArch (ctx : Ctx) (pool : Pool) (n v : Str) : Bool :=
  match poolGet pool (n ++ '.' :: (v ++ ".ccp".data)) with
  | none => false
  | some data =>
    match decodeArchive ctx data with
    | .ok (.obj mo) =>
      (mo.lookup "description".data).isSome && (mo.lookup "dependencies".data).isSome
    | _ => false

/-- The pool archive for `{n}.{v}.ccp` is missing or fails one of the four
caught decode errors: the soft failures `read_package` logs and skips. -/
def isSoftBad (ctx : Ctx) (pool : Pool) (n v : Str) : Bool :=
  match poolGet pool (n ++ '.' :: (v ++ ".ccp".data)) with
  | none => true
  | some data =>
    match decodeArchive ctx data with
    | .error .padErr => true
    | .error .zlibErr => true
    | .error .parseErr => true
    | _ => false

/-- A skip diagnostic of `read_package`. -/
def isSkipLog (s : Str) : Bool := "[!] Version ".data.isPrefixOf s

theorem isSkipLog_append (t : Str) : isSkipLog ("[!] Version ".data ++ t) = true := by
  rw [isSkipLog, List.isPrefixOf_iff_prefix]
  exact ⟨t, rfl⟩

theorem sizeO_set_none : ∀ (vo : JsonObj) (v : Str) (e : Json), vo.lookup v = none →
    sizeO (vo.set v e) = sizeO vo + 1
  | .onil, v, e => by intro _; simp [JsonObj.set, sizeO]
  | .ocons k w t, v, e => by
    intro h
    simp only [JsonObj.lookup] at h
    by_cases hk : k = v
    · rw [if_pos hk] at h
      cases h
    · rw [if_neg hk] at h
      rw [JsonObj.set, if_neg hk]
      simp only [sizeO, sizeO_set_none t v e h]
      omega

theorem totalVersO_set_none : ∀ (po : JsonObj) (k : Str) (e : Json), po.lookup k = none →
    totalVersO (po.set k e) = totalVersO po + entryVers e
  | .onil, k, e => by intro _; simp [JsonObj.set, totalVersO, entryVers]
  | .ocons k2 w t, k, e => by
    intro h
    simp only [JsonObj.lookup] at h
    by_cases hk : k2 = k
    · rw [if_pos hk] at h
      cases h
    · rw [if_neg hk] at h
      rw [JsonObj.set, if_neg hk]
      simp only [totalVersO, totalVersO_set_none t k e h]
      omega

theorem totalVersO_set_some : ∀ (po : JsonObj) (k : Str) (e eOld : Json),
    po.lookup k = some eOld →
    totalVersO (po.set k e) + entryVers eOld = totalVersO po + entryVers e
  | .onil, k, e, eOld => by intro h; simp [JsonObj.lookup] at h
  | .ocons k2 w t, k, e, eOld => by
    intro h
    simp only [JsonObj.lookup] at h
    by_cases hk : k2 = k
    · rw [if_pos hk] at h
      rw [JsonObj.set, if_pos hk]
      simp only [totalVersO, Option.some.inj h]
      omega
    · rw [if_neg hk] at h
      rw [JsonObj.set, if_neg hk]
      simp only [totalVersO]
      have := totalVersO_set_some t k e eOld h
      omega

/-- The repair upsert never raises on a working index when the record has
`description` and `dependencies`: it rewrites exactly the name's entry,
adding the version under `versions`. -/
theorem upsertRepair_ok (po mo : JsonObj) (name v dg : Str) (d dep : Json)
    (hgood : goodIndexO po = true)
    (hd : mo.lookup "description".data = some d)
    (hdep : mo.lookup "dependencies".data = some dep) :
    ∃ eo3, upsertRepair (.obj po) name (.obj mo) v dg =
        .ok (.obj (po.set name (.obj eo3))) ∧
      eo3.lookup "versions".data =
        some (.obj ((versionsAtD po name).set v
          (.obj (.ocons "digest".data (.str dg)
            (.ocons "dependencies".data dep .onil))))) := by
  cases hpn : po.lookup name with
  | none =>
    refine ⟨.ocons "description".data d
        (.ocons "versions".data (.obj (.ocons v (.obj (.ocons "digest".data (.str dg)
            (.ocons "dependencies".data dep .onil))) .onil))
          (.ocons "latest_version".data (.str v) .onil)), ?_, ?_⟩
    · simp +decide [upsertRepair, Bind.bind, Except.bind, pure, Except.pure, pyContains,
        hpn, ensureEntry, pySetItem, pyGetItem, hd, hdep,
        JsonObj.lookup_set_self, JsonObj.lookup_set_ne, freshEntry, JsonObj.set,
        JsonObj.lookup, JsonObj.set_set_same]
    · simp +decide [versionsAtD, hpn, JsonObj.set, JsonObj.lookup]
  | some e =>
    have hge := goodIndexO_lookup po name e hgood hpn
    cases e with
    | obj eo =>
      cases hev : eo.lookup "versions".data with
      | some w =>
        cases w with
        | obj vo =>
          refine ⟨((eo.set "description".data d).set "versions".data
              (.obj (vo.set v (.obj (.ocons "digest".data (.str dg)
                (.ocons "dependencies".data dep .onil)))))).set "latest_version".data
                  (.str v), ?_, ?_⟩
          · simp +decide [upsertRepair, Bind.bind, Except.bind, pure, Except.pure,
              pyContains, hpn, ensureEntry, pySetItem, pyGetItem, hd, hdep, hev,
              JsonObj.lookup_set_self, JsonObj.lookup_set_ne, JsonObj.set_set_same]
          · rw [JsonObj.lookup_set_ne _ _ _ _ (by decide), JsonObj.lookup_set_self]
            simp [versionsAtD, hpn, hev]
        | null => simp [goodEntry, hev] at hge
        | bool b => simp [goodEntry, hev] at hge
        | num i => simp [goodEntry, hev] at hge
        | str s => simp [goodEntry, hev] at hge
        | arr a => simp [goodEntry, hev] at hge
      | none => simp [goodEntry, hev] at hge
    | null => simp [goodEntry] at hge
    | bool b => simp [goodEntry] at hge
    | num i => simp [goodEntry] at hge
    | str s => simp [goodEntry] at hge
    | arr a => simp [goodEntry] at hge

/-- A repair upsert of a fresh version raises the total version count of a
working index by exactly one. -/
theorem totalVersO_upsert (po : JsonObj) (n : Str) (eo3 : JsonObj) (v : Str) (ven : Json)
    (hgood : goodIndexO po = true)
    (hev3 : eo3.lookup "versions".data = some (.obj ((versionsAtD po n).set v ven)))
    (hvnone : (versionsAtD po n).lookup v = none) :
    totalVersO (po.set n (.obj eo3)) = totalVersO po + 1 := by
  have hev : entryVers (.obj eo3) = sizeO (versionsAtD po n) + 1 := by
    simp only [entryVers, hev3, sizeO_set_none _ v ven hvnone]
  cases hpn : po.lookup n with
  | none =>
    rw [totalVersO_set_none po n _ hpn, hev]
    simp [versionsAtD, hpn, sizeO]
  | some eOld =>
    have hge := goodIndexO_lookup po n eOld hgood hpn
    have hsum := totalVersO_set_some po n (.obj eo3) eOld hpn
    cases eOld with
    | obj eo =>
      cases hevo : eo.lookup "versions".data with
      | some w =>
        cases w with
        | obj vo =>
          have h1 : entryVers (.obj eo) = sizeO vo := by simp [entryVers, hevo]
          have h2 : versionsAtD po n = vo := by simp [versionsAtD, hpn, hevo]
          rw [h2] at hev
          omega
        | null => simp [goodEntry, hevo] at hge
        | bool b => simp [goodEntry, hevo] at hge
        | num i => simp [goodEntry, hevo] at hge
        | str s => simp [goodEntry, hevo] at hge
        | arr a => simp [goodEntry, hevo] at hge
      | none => simp [goodEntry, hevo] at hge
    | null => simp [goodEntry] at hge
    | bool b => simp [goodEntry] at hge
    | num i => simp [goodEntry] at hge
    | str s => simp [goodEntry] at hge
    | arr a => simp [goodEntry] at hge

/-- The per-package inner repair loop over archives that are each either good
or soft-failing: it never raises, indexes each good version (raising the
total count by one each), touches no other name, and logs one skip
diagnostic per soft failure. -/
theorem repairVersions_ok (ctx : Ctx) (pool : Pool) (n : Str) : ∀ (vs : List Str) (po : JsonObj),
    goodIndexO po = true →
    (∀ v ∈ vs, isGoodArch ctx pool n v = true ∨ isSoftBad ctx pool n v = true) →
    (∀ v ∈ vs, (versionsAtD po n).lookup v = none) →
    vs.Nodup →
    ∃ l po2, repairVersions ctx pool n vs (.obj po) = (l, .ok (.obj po2)) ∧
      goodIndexO po2 = true ∧
      (∀ k, k ≠ n → po2.lookup k = po.lookup k) ∧
      totalVersO po2 = totalVersO po + vs.countP (fun v => isGoodArch ctx pool n v) ∧
      l.countP isSkipLog = vs.countP (fun v => isSoftBad ctx pool n v)
  | [], po => by
    intro hgood _ _ _
    exact ⟨[], po, rfl, hgood, fun k _ => rfl, by simp, by simp⟩
  | v :: vs, po => by
    intro hgood harch hdisj hnd
    rcases List.nodup_cons.mp hnd with ⟨hvn, hnd2⟩
    rcases harch v (List.mem_cons_self v vs) with hag | hsb
    · rw [isGoodArch] at hag
      cases hpg : poolGet pool (n ++ '.' :: (v ++ ".ccp".data)) with
      | none => simp [hpg] at hag
      | some data =>
        simp only [hpg] at hag
        cases hdc : decodeArchive ctx data with
        | error de => simp [hdc] at hag
        | ok m =>
          simp only [hdc] at hag
          cases m with
          | obj mo =>
            simp only [Bool.and_eq_true, Option.isSome_iff_exists] at hag
            obtain ⟨⟨d, hd⟩, dep, hdep⟩ := hag
            have hrp : read_package ctx pool n v =
                ([], .ok (some ⟨.obj mo, ctx.digest (utf8Encode data)⟩)) := by
              simp only [read_package, hpg, hdc]
            obtain ⟨eo3, hup, hev3⟩ :=
              upsertRepair_ok po mo n v (ctx.digest (utf8Encode data)) d dep hgood hd hdep
            have hgE : goodEntry (.obj eo3) = true := by simp [goodEntry, hev3]
            have hg1 : goodIndexO (po.set n (.obj eo3)) = true :=
              goodIndexO_set po n _ hgood hgE
            have hvAt : versionsAtD (po.set n (.obj eo3)) n =
                (versionsAtD po n).set v (.obj (.ocons "digest".data
                  (.str (ctx.digest (utf8Encode data)))
                  (.ocons "dependencies".data dep .onil))) := by
              simp [versionsAtD, JsonObj.lookup_set_self, hev3]
            obtain ⟨l2, po2, hloop2, hg2, hframe2, hcount2, hskip2⟩ :=
              repairVersions_ok ctx pool n vs (po.set n (.obj eo3)) hg1
                (fun w hw => harch w (List.mem_cons_of_mem v hw))
                (fun w hw => by
                  have hwv : w ≠ v := fun he => hvn (he ▸ hw)
                  rw [hvAt, JsonObj.lookup_set_ne _ _ _ _ hwv]
                  exact hdisj w (List.mem_cons_of_mem v hw))
                hnd2
            refine ⟨("[+] Version ".data ++ v) :: l2, po2, ?_, hg2, ?_, ?_, ?_⟩
            · simp only [repairVersions, hrp, hup, hloop2, List.nil_append]
            · intro k hk
              rw [hframe2 k hk]
              exact JsonObj.lookup_set_ne po n _ k hk
            · rw [hcount2,
                totalVersO_upsert po n eo3 v _ hgood hev3 (hdisj v (List.mem_cons_self v vs)),
                List.countP_cons_of_pos]
              · omega
              · show isGoodArch ctx pool n v = true
                simp [isGoodArch, hpg, hdc, hd, hdep]
            · rw [List.countP_cons_of_neg, hskip2, List.countP_cons_of_neg]
              · show ¬ isSoftBad ctx pool n v = true
                simp [isSoftBad, hpg, hdc]
              · show ¬ isSkipLog ("[+] Version ".data ++ v) = true
                rw [show isSkipLog ("[+] Version ".data ++ v) = false from rfl]
                simp
          | null => cases hag
          | bool b => cases hag
          | num i => cases hag
          | str s => cases hag
          | arr a => cases hag
    · have hsoft : ∃ suf, read_package ctx pool n v =
          (["[!] Version ".data ++ v ++ suf], .ok none) ∧
          isGoodArch ctx pool n v = false := by
        rw [isSoftBad] at hsb
        cases hpg : poolGet pool (n ++ '.' :: (v ++ ".ccp".data)) with
        | none =>
          exact ⟨" not found".data, by simp only [read_package, hpg],
            by simp [isGoodArch, hpg]⟩
        | some data =>
          simp only [hpg] at hsb
          cases hdc : decodeArchive ctx data with
          | ok m => simp [hdc] at hsb
          | error de =>
            simp only [hdc] at hsb
            cases de with
            | padErr =>
              exact ⟨" is invalid (corrupted)".data, by simp only [read_package, hpg, hdc],
                by simp [isGoodArch, hpg, hdc]⟩
            | zlibErr =>
              exact ⟨" is invalid (corrupted)".data, by simp only [read_package, hpg, hdc],
                by simp [isGoodArch, hpg, hdc]⟩
            | parseErr =>
              exact ⟨" is invalid (no manifest)".data, by simp only [read_package, hpg, hdc],
                by simp [isGoodArch, hpg, hdc]⟩
            | asciiErr => cases hsb
            | utf8Err => cases hsb
      obtain ⟨suf, hrp, hgf⟩ := hsoft
      obtain ⟨l2, po2, hloop2, hg2, hframe2, hcount2, hskip2⟩ :=
        repairVersions_ok ctx pool n vs po hgood
          (fun w hw => harch w (List.mem_cons_of_mem v hw))
          (fun w hw => hdisj w (List.mem_cons_of_mem v hw))
          hnd2
      refine ⟨("[!] Version ".data ++ v ++ suf) :: l2, po2, ?_, hg2, hframe2, ?_, ?_⟩
      · simp only [repairVersions, hrp, hloop2]
        rfl
      · rw [hcount2, List.countP_cons_of_neg]
        show ¬ isGoodArch ctx pool n v = true
        simp [hgf]
      · rw [List.countP_cons_of_pos, hskip2, List.countP_cons_of_pos]
        · exact hsb
        · show isSkipLog ("[!] Version ".data ++ v ++ suf) = true
          rw [List.append_assoc]
          exact isSkipLog_append (v ++ suf)

/-- Total number of version entries across the whole written index value. -/
def versionCount : Json → Nat
  | .obj po => totalVersO po
  | _ => 0

/-- The outer repair loop over the scanned groups: it never raises when every
archive is good or soft-failing, counts one indexed version per good archive
and one skip diagnostic per soft failure. -/
theorem repairLoop_ok (ctx : Ctx) (pool : Pool) : ∀ (gs : List (Str × List Str)) (po : JsonObj),
    goodIndexO po = true →
    (∀ g ∈ gs, ∀ v ∈ g.2, isGoodArch ctx pool g.1 v = true ∨ isSoftBad ctx pool g.1 v = true) →
    (∀ g ∈ gs, g.2.Nodup) →
    (∀ g ∈ gs, po.lookup g.1 = none) →
    (gs.map Prod.fst).Nodup →
    ∃ l po2, repairLoop ctx pool gs (.obj po) = (l, .ok (.obj po2)) ∧
      goodIndexO po2 = true ∧
      totalVersO po2 = totalVersO po +
        (gs.map (fun g => g.2.countP (fun v => isGoodArch ctx pool g.1 v))).sum ∧
      l.countP isSkipLog =
        (gs.map (fun g => g.2.countP (fun v => isSoftBad ctx pool g.1 v))).sum
  | [], po => by
    intro hgood _ _ _ _
    exact ⟨[], po, rfl, hgood, by simp, by simp⟩
  | (n, vs) :: gs, po => by
    intro hgood harch hndv hfresh hndn
    have hndn' : n ∉ gs.map Prod.fst ∧ (gs.map Prod.fst).Nodup := by
      rw [List.map_cons, List.nodup_cons] at hndn
      exact hndn
    obtain ⟨hnn, hndn2⟩ := hndn' 
    have hpn : po.lookup n = none := hfresh (n, vs) (List.mem_cons_self _ gs)
    obtain ⟨l1, po1, hv1, hg1, hframe1, hcount1, hskip1⟩ :=
      repairVersions_ok ctx pool n vs po hgood
        (fun v hv => harch (n, vs) (List.mem_cons_self _ gs) v hv)
        (fun v _ => by simp [versionsAtD, hpn, JsonObj.lookup])
        (hndv (n, vs) (List.mem_cons_self _ gs))
    obtain ⟨l2, po2, hloop2, hg2, hcount2, hskip2⟩ :=
      repairLoop_ok ctx pool gs po1 hg1
        (fun g hg v hv => harch g (List.mem_cons_of_mem _ hg) v hv)
        (fun g hg => hndv g (List.mem_cons_of_mem _ hg))
        (fun g hg => by
          have hgn : g.1 ≠ n := fun he => hnn (he ▸ List.mem_map_of_mem Prod.fst hg)
          rw [hframe1 g.1 hgn]
          exact hfresh g (List.mem_cons_of_mem _ hg))
        hndn2
    refine ⟨("Indexing ".data ++ n) :: l1 ++ l2, po2, ?_, hg2, ?_, ?_⟩
    · simp only [repairLoop, hv1, hloop2]
    · rw [hcount2, hcount1]
      simp only [List.map_cons, List.sum_cons]
      omega
    · rw [List.countP_append, List.countP_cons_of_neg, hskip1, hskip2]
      · simp
      · show ¬ isSkipLog ("Indexing ".data ++ n) = true
        rw [show isSkipLog ("Indexing ".data ++ n) = false from rfl]
        simp

/-- The zlib stream `zlib.compress("\x7b\x7d".encode())`: its base64 text is
`eJyrrgUAAXUA+Q==`. -/
def zEmpty : List Nat := [120, 156, 171, 174, 5, 0, 1, 117, 0, 249]

/-- The zlib stream of
`'\x7b"description": "d", "dependencies": []\x7d'.encode()`: its base64 text is
`eJyrVkpJLU4uyiwoyczPU7JSUEpR0gESqQWpeSmpecmZqcVAwejYWgAXgQ1s`. -/
def zRec : List Nat :=
  [120, 156, 171, 86, 74, 73, 45, 78, 46, 202, 44, 40, 201, 204, 207, 83, 178, 82,
   80, 74, 81, 210, 1, 18, 169, 5, 169, 121, 41, 169, 121, 201, 153, 169, 197, 64,
   193, 232, 216, 90, 0, 23, 129, 13, 108]

/-- A context whose `inflate` agrees with `zlib.decompress` at the two real
zlib streams the C4 inputs hold, and refuses any other input. -/
def ctxZ : Ctx :=
  ⟨fun _ => "d".data, id, fun bs =>
    if bs = zEmpty then .ok (utf8Encode "\x7b\x7d".data)
    else if bs = zRec then
      .ok (utf8Encode "\x7b\"description\": \"d\", \"dependencies\": []\x7d".data)
    else .error ()⟩

/-- A repair run over a single archive that truly decodes (base64, then a real
zlib stream of `\x7b\x7d`, then JSON) but lacks the keys the indexer reads,
aborts: the original completeness claim fails on it. -/
theorem c4_decodable_but_keyless_aborts :
    (∃ mo, decodeArchive ctxZ "eJyrrgUAAXUA+Q==".data = .ok (.obj mo)) ∧
    (repairRun ctxZ [("p.1.ccp".data, "eJyrrgUAAXUA+Q==".data)]).exit = 1 ∧
    (repairRun ctxZ [("p.1.ccp".data, "eJyrrgUAAXUA+Q==".data)]).err ≠ none ∧
    (repairRun ctxZ [("p.1.ccp".data, "eJyrrgUAAXUA+Q==".data)]).indexJson = none :=
  ⟨⟨.onil, by rfl⟩, by decide, by decide, by decide⟩

/-- Claim C4 (amended): over a pool whose scan groups to `gs` with distinct
names and per-name distinct versions, where every archive is either good
(found, decodes, record has `description` and `dependencies`) or
soft-failing (missing, bad padding, zlib error, or JSON parse error), repair
mode completes with exit code 0, writes an index whose total version count
is exactly the number M of good archives, and logs exactly one skip
diagnostic per soft-failing archive (K in total).  (The original claim is
false: an archive that decodes successfully to a record lacking
`description` or `dependencies` — or one whose text is non-ASCII or whose
payload is invalid UTF-8 — aborts the whole run instead of being
skipped.) -/
theorem c4_repair_completeness (ctx : Ctx) (pool : Pool) (gs : List (Str × List Str))
    (hgs : get_built_packages pool = .ok gs)
    (harch : ∀ g ∈ gs, ∀ v ∈ g.2,
      isGoodArch ctx pool g.1 v = true ∨ isSoftBad ctx pool g.1 v = true)
    (hndv : ∀ g ∈ gs, g.2.Nodup)
    (hndn : (gs.map Prod.fst).Nodup) :
    (repairRun ctx pool).exit = 0 ∧ (repairRun ctx pool).err = none ∧
    (∃ P, (repairRun ctx pool).indexJson = some P ∧
      versionCount P =
        (gs.map (fun g => g.2.countP (fun v => isGoodArch ctx pool g.1 v))).sum) ∧
    (repairRun ctx pool).logs.countP isSkipLog =
      (gs.map (fun g => g.2.countP (fun v => isSoftBad ctx pool g.1 v))).sum := by
  obtain ⟨l, po2, hloop, _, hcount, hskip⟩ :=
    repairLoop_ok ctx pool gs .onil rfl harch hndv (fun g _ => rfl) hndn
  rw [repairRun, hgs]
  simp only [hloop]
  refine ⟨by trivial, by trivial, ⟨.obj po2, by trivial, ?_⟩, ?_⟩
  · rw [versionCount, hcount]
    simp [totalVersO]
  · show (l ++ ["Writing index".data]).countP isSkipLog = _
    rw [List.countP_append, hskip]
    have h0 : List.countP isSkipLog ["Writing index".data] = 0 := by decide
    omega

/-- A pool with one corrupted archive and one good archive holding a real
zlib stream. -/
def poolC4w : Pool :=
  [("a.1.ccp".data, "a".data),
   ("b.1.ccp".data,
    "eJyrVkpJLU4uyiwoyczPU7JSUEpR0gESqQWpeSmpecmZqcVAwejYWgAXgQ1s".data)]

/-- The scan groups of `poolC4w`. -/
def gsC4w : List (Str × List Str) := [("a".data, ["1".data]), ("b".data, ["1".data])]

theorem c4_repair_completeness_witness :
    (repairRun ctxZ poolC4w).exit = 0 ∧ (repairRun ctxZ poolC4w).err = none ∧
    (∃ P, (repairRun ctxZ poolC4w).indexJson = some P ∧
      versionCount P =
        (gsC4w.map (fun g => g.2.countP (fun v => isGoodArch ctxZ poolC4w g.1 v))).sum) ∧
    (repairRun ctxZ poolC4w).logs.countP isSkipLog =
      (gsC4w.map (fun g => g.2.countP (fun v => isSoftBad ctxZ poolC4w g.1 v))).sum :=
  c4_repair_completeness ctxZ poolC4w gsC4w (by rfl) (by decide) (by decide) (by decide)
